import Mathlib

/-!
Shallow embedding of the OpenX2Argoverse map-compilation pipeline.

Coordinates, lengths and widths are modelled as exact rationals (the Python
code computes with IEEE doubles; all claims under study are about exact
arithmetic identities and control flow, not rounding).  The trigonometric
functions `np.cos` / `np.sin` are modelled by an explicit `Trig` record of
two rational-valued functions, supplied as a parameter to every pipeline
stage; concrete instances fix their values at the headings that actually
occur in a scenario (e.g. `cos 0 = 1`, `sin 0 = 0`, matching the exact
float results of numpy at those arguments).

The XML documents are modelled post-parsing: a record mirrors exactly the
attributes and child elements each Python function reads from the
ElementTree.
-/

attribute [local semireducible] Rat.mul Rat.add Rat.sub Rat.inv

/-- Python `int()` applied to a rational: truncation toward zero. -/
def truncInt (q : ℚ) : ℤ := if q < 0 then ⌈q⌉ else ⌊q⌋

/-- Python `range(n)` for a possibly negative bound `n` (empty when `n ≤ 0`). -/
def pyRange (n : ℤ) : List ℕ := List.range n.toNat

/-- numpy `arange(start, stop, step)` for a positive step: the values
`start + k·step` for `0 ≤ k < ⌈(stop − start)/step⌉`. -/
def arange (start stop step : ℚ) : List ℚ :=
  (List.range (⌈(stop - start) / step⌉).toNat).map fun k => start + (k : ℚ) * step

/-- Model of `np.cos` / `np.sin`: an arbitrary pair of functions supplied to
the pipeline (instantiated per scenario with the exact float values numpy
returns at the headings used). -/
structure Trig where
  cos : ℚ → ℚ
  sin : ℚ → ℚ

/-- One `<geometry>` element: reference-line start pose and length, plus the
optional `<elevation>` child (value of its `a` attribute) read by the
ground-height converter. -/
structure Geometry where
  x : ℚ
  y : ℚ
  hdg : ℚ
  length : ℚ
  elevation_a : Option ℚ
  deriving DecidableEq

/-- One `<lane>` element: the attributes and child elements the converters
read.  `width_a` is the `a` attribute of the `<width>` child (`none` when no
`<width>` element exists); `width_attr` is the lane's own `width` attribute
string; `neighbors_lr` models the `<neighbors>` child (`left`/`right`
attributes). -/
structure Lane where
  type_attr : Option String
  width_attr : Option String
  width_a : Option ℚ
  l_neighbor : Option String
  r_neighbor : Option String
  neighbors_lr : Option (Option String × Option String)
  deriving DecidableEq

/-- One `<laneSection>` element with the `laneOffset` value found inside it
(`a` attribute; `none` when absent). -/
structure LaneSection where
  laneOffset_a : Option ℚ
  lanes : List Lane
  deriving DecidableEq

/-- One `<road>` element: geometry primitives, lane sections, and the
`elementId` attributes of `<link>/<predecessor>` and `<link>/<successor>`. -/
structure Road where
  geometries : List Geometry
  sections : List LaneSection
  link_pred : Option String
  link_succ : Option String
  deriving DecidableEq

/-- A parsed `.xodr` document: the list of all `<road>` elements. -/
structure XodrDoc where
  roads : List Road
  deriving DecidableEq

/-- The end point of a geometry primitive:
`(x + length·cos hdg, y + length·sin hdg)`. -/
def endX (tr : Trig) (g : Geometry) : ℚ := g.x + g.length * tr.cos g.hdg

/-- The `y` coordinate of a primitive's end point. -/
def endY (tr : Trig) (g : Geometry) : ℚ := g.y + g.length * tr.sin g.hdg

/-- World-space map bounds. -/
structure Bounds where
  minX : ℚ
  maxX : ℚ
  minY : ℚ
  maxY : ℚ
  deriving DecidableEq

/-- Folding one geometry primitive's endpoints into the running bounds.
`none` models the initial `(inf, -inf, inf, -inf)` state of
`calculate_map_bounds`. -/
def foldGeomBounds (tr : Trig) (st : Option Bounds) (g : Geometry) : Option Bounds :=
  let xe := endX tr g
  let ye := endY tr g
  match st with
  | none => some ⟨min g.x xe, max g.x xe, min g.y ye, max g.y ye⟩
  | some b =>
      some ⟨min b.minX (min g.x xe), max b.maxX (max g.x xe),
            min b.minY (min g.y ye), max b.maxY (max g.y ye)⟩

/-- The per-lane bound inflation of `calculate_map_bounds`: all four sides
are pushed out by `|laneOffset| + |laneWidth|`.  On the untouched (infinite)
state the subtraction leaves the state untouched, exactly as `inf - c = inf`
does in the float code. -/
def laneInflate (sec : LaneSection) (lane : Lane) (st : Option Bounds) : Option Bounds :=
  let lane_offset := sec.laneOffset_a.getD 0
  let lane_width := lane.width_a.getD 0
  let total_width := |lane_offset| + |lane_width|
  st.map fun b =>
    ⟨b.minX - total_width, b.maxX + total_width,
     b.minY - total_width, b.maxY + total_width⟩

/-- Processing one road inside `calculate_map_bounds`: fold all geometry
endpoints, then apply the lane-width inflation for every lane of every lane
section. -/
def roadBoundsStep (tr : Trig) (st : Option Bounds) (road : Road) : Option Bounds :=
  let st1 := road.geometries.foldl (foldGeomBounds tr) st
  road.sections.foldl (fun st2 sec => sec.lanes.foldl (fun st3 lane => laneInflate sec lane st3) st2) st1

/-- `calculate_map_bounds` (identical in `xodr2npy_area&image2city.py` and
its `_multi` variant): endpoint min/max folded over all roads, inflated per
lane, with the `(0, 1, 0, 1)` fallback when no geometry was found. -/
def calculate_map_bounds (tr : Trig) (doc : XodrDoc) : Bounds :=
  match doc.roads.foldl (roadBoundsStep tr) none with
  | none => ⟨0, 1, 0, 1⟩
  | some b => b

/-- `calculate_transform_matrix`: the translation-only 3×3 matrix
`[[1,0,-minX],[0,1,-minY],[0,0,1]]`. -/
def calculate_transform_matrix (min_x min_y : ℚ) : List (List ℚ) :=
  [[1, 0, -min_x], [0, 1, -min_y], [0, 0, 1]]

/-- Applying a 3×3 homogeneous matrix (row-list form) to a world point. -/
def mat3_apply (m : List (List ℚ)) (x y : ℚ) : ℚ × ℚ :=
  let row := fun (i : ℕ) => (m.getD i []).getD
  (row 0 0 0 * x + row 0 1 0 * y + row 0 2 0,
   row 1 0 0 * x + row 1 1 0 * y + row 1 2 0)

/-- `xodr_to_bbox_table` (`xodr2npy_bbox.py`): one row per geometry
primitive, `[x_start − w/2, y_start − w/2, x_end + w/2, y_end + w/2]` with
the fixed nominal width `w = 3.5`. -/
def xodr_to_bbox_table (tr : Trig) (doc : XodrDoc) : List (List ℚ) :=
  doc.roads.flatMap fun road =>
    road.geometries.map fun g =>
      [g.x - 7/4, g.y - 7/4, endX tr g + 7/4, endY tr g + 7/4]

/-- An occupancy grid, addressed `grid row col` (values 0 / 1); cells that
were never written are 0 (`np.zeros`). -/
def AGrid : Type := ℤ → ℤ → ℕ

/-- The all-zero occupancy grid. -/
def zeroAGrid : AGrid := fun _ _ => 0

/-- Setting one cell of an occupancy grid to 1 (`driveable_area[row, col] = 1`). -/
def writeCell (g : AGrid) (rc : ℤ × ℤ) : AGrid :=
  fun r c => if r = rc.1 ∧ c = rc.2 then 1 else g r c

/-- Executing a list of in-range cell writes in order. -/
def applyWrites (ws : List (ℤ × ℤ)) (g : AGrid) : AGrid :=
  ws.foldl writeCell g

/-- The lane width read by the single-document rasterizer:
`float(width_element.get("a", 0)) if width_element is not None else 0`. -/
def laneWidthVal (lane : Lane) : ℚ := lane.width_a.getD 0

/-- Grid dimensions `(rows, cols)` of the single-document rasterizer:
`int(height/resolution)` and `int(width/resolution)` (truncation, no
additive constant). -/
def singleGridDims (b : Bounds) (res : ℚ) : ℤ × ℤ :=
  (truncInt ((b.maxY - b.minY) / res), truncInt ((b.maxX - b.minX) / res))

/-- The ordered list of in-range cell writes performed by
`parse_xodr_to_driveable_area` (`xodr2npy_area&image2city.py`): for every
road, geometry, lane section and lane — skipping lanes with zero width or a
type other than `"driving"` — step `i` over `range(int(length/res))` and
lateral offset `w` over `arange(-width, width+res, res)`, projecting
`(x + w·sin hdg, y − w·cos hdg)` and flooring to a cell, dropped when out of
range. -/
def singleWrites (tr : Trig) (doc : XodrDoc) (res : ℚ) : List (ℤ × ℤ) :=
  let b := calculate_map_bounds tr doc
  let dims := singleGridDims b res
  doc.roads.flatMap fun road =>
    road.geometries.flatMap fun g =>
      road.sections.flatMap fun sec =>
        sec.lanes.flatMap fun lane =>
          if laneWidthVal lane = 0 ∨ lane.type_attr ≠ some "driving" then []
          else
            (pyRange (truncInt (g.length / res))).flatMap fun i =>
              (arange (-(laneWidthVal lane)) (laneWidthVal lane + res) res).filterMap fun w =>
                let x := g.x + -b.minX + (i : ℚ) * res * tr.cos g.hdg
                let y := g.y + -b.minY + (i : ℚ) * res * tr.sin g.hdg
                let gx := truncInt ((x + w * tr.sin g.hdg) / res)
                let gy := truncInt ((y - w * tr.cos g.hdg) / res)
                if 0 ≤ gx ∧ gx < dims.2 ∧ 0 ≤ gy ∧ gy < dims.1 then some (gy, gx) else none

/-- Result of the single-document drivable-area conversion. -/
structure AreaResult where
  dims : ℤ × ℤ
  grid : AGrid
  transform : List (List ℚ)

/-- `parse_xodr_to_driveable_area`: bounds, grid allocation, rasterization,
and the translation transform matrix. -/
def parse_xodr_to_driveable_area (tr : Trig) (doc : XodrDoc) (res : ℚ) : AreaResult :=
  let b := calculate_map_bounds tr doc
  { dims := singleGridDims b res
    grid := applyWrites (singleWrites tr doc res) zeroAGrid
    transform := calculate_transform_matrix b.minX b.minY }

/-- Grid dimensions `(rows, cols)` of the batch/global grid:
`int(np.ceil(height/resolution)) + 1` and `int(np.ceil(width/resolution)) + 1`. -/
def batchGridDims (b : Bounds) (res : ℚ) : ℤ × ℤ :=
  (⌈(b.maxY - b.minY) / res⌉ + 1, ⌈(b.maxX - b.minX) / res⌉ + 1)

/-- First phase of `batch_convert_xodr_to_driveable_area`
(`xodr2npy_area&image2city_multi.py`): per-document bounds combined with
min/max across all documents (`none` when there are no documents, modelling
the untouched `inf` state). -/
def globalBounds (tr : Trig) (docs : List XodrDoc) : Option Bounds :=
  docs.foldl (fun st doc =>
    let b := calculate_map_bounds tr doc
    match st with
    | none => some b
    | some gb => some ⟨min gb.minX b.minX, max gb.maxX b.maxX,
                       min gb.minY b.minY, max gb.maxY b.maxY⟩) none

/-- The ordered list of in-range cell writes of the batch rasterizer's fill
phase: lanes of type `"driving"` that have a `<width>` element (a zero width
value is not skipped), step `step` over `range(int(length/res) + 1)`, offsets
over `arange(-width, width+res, res)`, global translation by the global
minimum corner. -/
def batchWrites (tr : Trig) (docs : List XodrDoc) (res : ℚ) (gb : Bounds) : List (ℤ × ℤ) :=
  let dims := batchGridDims gb res
  docs.flatMap fun doc =>
    doc.roads.flatMap fun road =>
      road.geometries.flatMap fun g =>
        road.sections.flatMap fun sec =>
          sec.lanes.flatMap fun lane =>
            if lane.type_attr ≠ some "driving" then []
            else
              lane.width_a.elim [] fun lw =>
                (pyRange (truncInt (g.length / res) + 1)).flatMap fun step =>
                  (arange (-lw) (lw + res) res).filterMap fun offset =>
                    let xc := g.x - gb.minX + (step : ℚ) * res * tr.cos g.hdg
                    let yc := g.y - gb.minY + (step : ℚ) * res * tr.sin g.hdg
                    let col := truncInt ((xc + offset * tr.sin g.hdg) / res)
                    let row := truncInt ((yc - offset * tr.cos g.hdg) / res)
                    if 0 ≤ row ∧ row < dims.1 ∧ 0 ≤ col ∧ col < dims.2 then some (row, col)
                    else none

/-- The fill phase of the batch drivable-area conversion, given the already
computed global bounds. -/
def batch_fill_driveable (tr : Trig) (docs : List XodrDoc) (res : ℚ) (gb : Bounds) : AGrid :=
  applyWrites (batchWrites tr docs res gb) zeroAGrid

/-- `batch_convert_xodr_to_driveable_area`
(`xodr2npy_area&image2city_multi.py`): global bounds pass, then one shared
grid filled from every document (`none` models the crash on an empty batch,
where the bounds stay infinite). -/
def batch_convert_xodr_to_driveable_area (tr : Trig) (docs : List XodrDoc) (res : ℚ) :
    Option ((ℤ × ℤ) × AGrid) :=
  (globalBounds tr docs).map fun gb =>
    (batchGridDims gb res, batch_fill_driveable tr docs res gb)

/-- A ground-height grid: `none` models the `np.nan` sentinel of unmeasured
cells. -/
def HGrid : Type := ℤ → ℤ → Option ℚ

/-- The all-`nan` initial height grid (`np.full(..., np.nan)`). -/
def nanHGrid : HGrid := fun _ _ => none

/-- Overwriting one height cell with a measured value
(`global_height[row, col] = height_value`). -/
def hwrite (v : ℚ) (grid : HGrid) (rc : ℤ × ℤ) : HGrid :=
  fun r c => if r = rc.1 ∧ c = rc.2 then some v else grid r c

/-- The elevation value a geometry primitive writes:
`float(elevation.get("a", 0))`. -/
def elevVal (g : Geometry) : ℚ := g.elevation_a.getD 0

/-- The in-range cell samples of one geometry primitive in the height fill
loop of `batch_convert_xodr_to_ground_height` (`xodr2npy_hight_multi.py`):
empty when the primitive has no `<elevation>` element, otherwise steps
`range(int(length/res) + 1)` along the reference line, translated by the
global minimum corner. -/
def heightCells (tr : Trig) (gmin : ℚ × ℚ) (res : ℚ) (rows cols : ℤ) (g : Geometry) :
    List (ℤ × ℤ) :=
  match g.elevation_a with
  | none => []
  | some _ =>
    (pyRange (truncInt (g.length / res) + 1)).filterMap fun step =>
      let x := g.x + (step : ℚ) * res * tr.cos g.hdg
      let y := g.y + (step : ℚ) * res * tr.sin g.hdg
      let col := truncInt ((x - gmin.1) / res)
      let row := truncInt ((y - gmin.2) / res)
      if 0 ≤ row ∧ row < rows ∧ 0 ≤ col ∧ col < cols then some (row, col) else none

/-- Rasterizing one geometry primitive into the height grid: every sampled
in-range cell is overwritten with the primitive's elevation value. -/
def fillGeomHeight (tr : Trig) (gmin : ℚ × ℚ) (res : ℚ) (rows cols : ℤ)
    (grid : HGrid) (g : Geometry) : HGrid :=
  (heightCells tr gmin res rows cols g).foldl (hwrite (elevVal g)) grid

/-- Rasterizing a list of geometry primitives in order into the height grid
(the traversal order of the fill phase). -/
def fillGeomsHeight (tr : Trig) (gmin : ℚ × ℚ) (res : ℚ) (rows cols : ℤ)
    (grid : HGrid) (gs : List Geometry) : HGrid :=
  gs.foldl (fillGeomHeight tr gmin res rows cols) grid

/-- The final `np.nan_to_num` pass: unmeasured cells become 0. -/
def nanToNum (grid : HGrid) : ℤ → ℤ → ℚ :=
  fun r c => (grid r c).getD 0

/-- Model of the `random` module's state: a stream of raw draws and the
current position.  `random.randint(1000000, 9999999)` is modelled as
`1000000 + draw % 9000000`, which ranges over exactly the 7-digit integers
and otherwise leaves the draws unconstrained. -/
structure Rng where
  f : ℕ → ℕ
  n : ℕ

/-- One `random.randint(1000000, 9999999)` call. -/
def randint7 (r : Rng) : ℕ × Rng :=
  (1000000 + r.f r.n % 9000000, ⟨r.f, r.n + 1⟩)

/-- `generate_unique_lane_id`: draw 7-digit integers until one is not in the
set of already issued identifiers, add it and return it.  The unbounded
`while True` loop is modelled with explicit fuel; `none` models
non-termination (every draw collided for `fuel` rounds). -/
def generate_unique_lane_id : ℕ → Rng → List ℕ → Option (ℕ × Rng × List ℕ)
  | 0, _, _ => none
  | fuel + 1, r, existing =>
    let p := randint7 r
    if p.1 ∈ existing then generate_unique_lane_id fuel p.2 existing
    else some (p.1, p.2, p.1 :: existing)

/-- One node of the vector map. -/
structure VNode where
  id : ℕ
  x : ℚ
  y : ℚ
  deriving DecidableEq

/-- One lane record (`way`) of the vector map. -/
structure Way where
  lane_id : ℕ
  lane_type : String
  width : String
  geometry : List VNode
  predecessor : List String
  successor : List String
  l_neighbor : String
  r_neighbor : String
  deriving DecidableEq

/-- The `[predecessor_id] if predecessor_id else []` tag list: the road's
link `elementId`, dropped when the attribute is missing or the empty string
(Python falsiness). -/
def predList (road : Road) : List String :=
  match road.link_pred with
  | some s => if s = "" then [] else [s]
  | none => []

/-- The successor tag list, symmetric to `predList`. -/
def succList (road : Road) : List String :=
  match road.link_succ with
  | some s => if s = "" then [] else [s]
  | none => []

/-- Mutable state of `parse_xodr_to_vector_map` (`xodr2xml&pyn_lanid.py`):
accumulated nodes and ways, the node counter, the `tableidx → laneid`
mapping, the table index counter, the random state, and the set of issued
identifiers. -/
structure PState where
  nodes : List VNode
  ways : List Way
  nodeId : ℕ
  mapping : List (String × ℕ)
  tableIdx : ℕ
  rng : Rng
  existing : List ℕ

/-- The geometry loop of one road in `parse_xodr_to_vector_map`: one fresh
node per geometry primitive (no dedup), collected in `road_geometry`. -/
def roadGeomNodes (st : PState) (road : Road) : PState × List VNode :=
  road.geometries.foldl
    (fun (p : PState × List VNode) g =>
      let node : VNode := ⟨p.1.nodeId, g.x, g.y⟩
      ({ p.1 with nodes := p.1.nodes ++ [node], nodeId := p.1.nodeId + 1 }, p.2 ++ [node]))
    (st, [])

/-- Processing one lane in `parse_xodr_to_vector_map`: issue a fresh unique
identifier, record the table-index mapping, and append the way carrying the
owning road's link predecessor/successor and the lane-local neighbor
attributes. -/
def processLaneS (fuel : ℕ) (road : Road) (geom : List VNode) (st : PState) (lane : Lane) :
    Option PState :=
  (generate_unique_lane_id fuel st.rng st.existing).map fun q =>
    { st with
      mapping := st.mapping ++ [(toString st.tableIdx, q.1)]
      ways := st.ways ++ [{
        lane_id := q.1
        lane_type := lane.type_attr.getD "driving"
        width := lane.width_attr.getD "3.5"
        geometry := geom
        predecessor := predList road
        successor := succList road
        l_neighbor := lane.l_neighbor.getD "None"
        r_neighbor := lane.r_neighbor.getD "None" }]
      tableIdx := st.tableIdx + 1
      rng := q.2.1
      existing := q.2.2 }

/-- Processing one road in `parse_xodr_to_vector_map`: geometry nodes first,
then every lane of every lane section. -/
def processRoadS (fuel : ℕ) (st : PState) (road : Road) : Option PState :=
  let p := roadGeomNodes st road
  road.sections.foldlM (fun st1 sec => sec.lanes.foldlM (processLaneS fuel road p.2) st1) p.1

/-- `parse_xodr_to_vector_map` (`xodr2xml&pyn_lanid.py`): single-file vector
map compilation over an initially empty state, seeded with the caller's
`existing_lane_ids` set and random state. -/
def parse_xodr_to_vector_map (fuel : ℕ) (doc : XodrDoc) (r : Rng) (ex : List ℕ) :
    Option PState :=
  doc.roads.foldlM (processRoadS fuel) ⟨[], [], 0, [], 0, r, ex⟩

/-- The per-file batch driver of `xodr2xml&pyn_lanid.py`: each document gets
a fresh `existing_lane_ids = set()` while the random state carries across
documents. -/
def batch_single_vector_map (fuel : ℕ) (docs : List XodrDoc) (r : Rng) :
    Option (List PState × Rng) :=
  docs.foldlM
    (fun (acc : List PState × Rng) doc =>
      (parse_xodr_to_vector_map fuel doc acc.2 []).map fun st => (acc.1 ++ [st], st.rng))
    ([], r)

/-- Rounding a coordinate to 4 decimal places, the quantization used by the
dedup keys of `xodr2xml&pyn_lanid_multi.py` (tie values follow `round`;
Python's banker rounding differs only on exact ties, which no claim
exercises). -/
def round4 (q : ℚ) : ℚ := (round (q * 10000) : ℤ) / 10000

/-- The dedup identity key of a lane: the ordered rounded node coordinates
of the owning road, the lane `type` attribute (default `"driving"`) and the
lane `width` attribute string (default `"3.5"`).  The Python code hashes
this tuple; the tuple itself is used as the key here. -/
abbrev WayKey := List (ℚ × ℚ) × String × String

/-- First-match lookup in an insertion-ordered association list (a Python
`dict` whose entries are only ever inserted, never overwritten). -/
def alookup {κ β : Type _} [DecidableEq κ] : List (κ × β) → κ → Option β
  | [], _ => none
  | p :: l, k => if p.1 = k then some p.2 else alookup l k

/-- Global mutable state of the dedup batch driver
(`batch_convert_xodr_to_vector_map_and_json` in
`xodr2xml&pyn_lanid_multi.py`). -/
structure GState where
  nodes : List ((ℚ × ℚ) × VNode)
  ways : List (WayKey × Way)
  mapping : List (String × ℕ)
  existing : List ℕ
  tableIdx : ℕ
  rng : Rng

/-- Node deduplication for one geometry primitive: key is the rounded
coordinate pair; a new node's identifier is the current number of global
nodes; the found or created node is appended to `road_nodes`. -/
def processGeomNode (p : GState × List VNode) (g : Geometry) : GState × List VNode :=
  let key : ℚ × ℚ := (round4 g.x, round4 g.y)
  match alookup p.1.nodes key with
  | some node => (p.1, p.2 ++ [node])
  | none =>
    let node : VNode := ⟨p.1.nodes.length, key.1, key.2⟩
    ({ p.1 with nodes := p.1.nodes ++ [(key, node)] }, p.2 ++ [node])

/-- The `road_nodes` list of one road in the dedup driver. -/
def processRoadNodes (st : GState) (road : Road) : GState × List VNode :=
  road.geometries.foldl processGeomNode (st, [])

/-- The dedup identity key derived from the collected `road_nodes` and the
lane attributes. -/
def laneKeyOf (roadNodes : List VNode) (lane : Lane) : WayKey :=
  (roadNodes.map fun node => (node.x, node.y),
   lane.type_attr.getD "driving", lane.width_attr.getD "3.5")

/-- Processing one lane in the dedup driver: when the key is already
present the lane is skipped entirely; otherwise a fresh identifier is
issued, the mapping row is recorded, and the way is inserted with empty
predecessor/successor tags and the `<neighbors>` attributes. -/
def processLaneG (fuel : ℕ) (roadNodes : List VNode) (st : GState) (lane : Lane) :
    Option GState :=
  let key := laneKeyOf roadNodes lane
  match alookup st.ways key with
  | some _ => some st
  | none =>
    (generate_unique_lane_id fuel st.rng st.existing).map fun q =>
      { st with
        ways := st.ways ++ [(key, {
          lane_id := q.1
          lane_type := lane.type_attr.getD "driving"
          width := lane.width_attr.getD "3.5"
          geometry := roadNodes
          predecessor := []
          successor := []
          l_neighbor := match lane.neighbors_lr with
            | some nb => nb.1.getD "None"
            | none => "None"
          r_neighbor := match lane.neighbors_lr with
            | some nb => nb.2.getD "None"
            | none => "None" })]
        mapping := st.mapping ++ [(toString st.tableIdx, q.1)]
        existing := q.2.2
        tableIdx := st.tableIdx + 1
        rng := q.2.1 }

/-- Processing one road in the dedup driver: node dedup first; roads whose
`road_nodes` list is empty are skipped; otherwise every lane of every lane
section is processed. -/
def processRoadG (fuel : ℕ) (st : GState) (road : Road) : Option GState :=
  let p := processRoadNodes st road
  if p.2 = [] then some p.1
  else road.sections.foldlM (fun st1 sec => sec.lanes.foldlM (processLaneG fuel p.2) st1) p.1

/-- Processing one document in the dedup driver. -/
def processDocG (fuel : ℕ) (st : GState) (doc : XodrDoc) : Option GState :=
  doc.roads.foldlM (processRoadG fuel) st

/-- The whole dedup batch: documents processed sequentially against one
shared global state. -/
def processBatchG (fuel : ℕ) (docs : List XodrDoc) (st : GState) : Option GState :=
  docs.foldlM (processDocG fuel) st

/-- The initial global state of one dedup compilation run. -/
def initG (r : Rng) : GState := ⟨[], [], [], [], 0, r⟩

/-- A document contains a lane with dedup key `k`: some road with at least
one geometry primitive whose rounded coordinates give `k`'s node tuple, and
a lane in one of its sections whose type/width attributes give `k`'s tag
components. -/
def docHasLaneKey (doc : XodrDoc) (k : WayKey) : Prop :=
  ∃ road ∈ doc.roads, road.geometries ≠ [] ∧
    road.geometries.map (fun g => (round4 g.x, round4 g.y)) = k.1 ∧
    ∃ sec ∈ road.sections, ∃ lane ∈ sec.lanes,
      lane.type_attr.getD "driving" = k.2.1 ∧ lane.width_attr.getD "3.5" = k.2.2

instance (doc : XodrDoc) (k : WayKey) : Decidable (docHasLaneKey doc k) := by
  unfold docHasLaneKey; infer_instance

/-- A cell of an occupancy grid holds 1 after a write sequence iff some
write targeted it or it already held 1. -/
theorem applyWrites_eq_one (ws : List (ℤ × ℤ)) (g : AGrid) (r c : ℤ) :
    applyWrites ws g r c = 1 ↔ (r, c) ∈ ws ∨ g r c = 1 := by
  induction ws generalizing g with
  | nil => simp [applyWrites]
  | cons w ws ih =>
    have hstep : applyWrites (w :: ws) g = applyWrites ws (writeCell g w) := rfl
    rw [hstep, ih]
    unfold writeCell
    by_cases h : r = w.1 ∧ c = w.2
    · have : (r, c) = w := Prod.ext h.1 h.2
      simp [h, this]
    · have : ¬((r, c) = w) := fun he => h ⟨congrArg Prod.fst he, congrArg Prod.snd he⟩
      simp [h, this, List.mem_cons]

/-- Last-write-wins for a sequence of height writes sharing one value. -/
theorem foldl_hwrite_apply (v : ℚ) (ws : List (ℤ × ℤ)) (grid : HGrid) (r c : ℤ) :
    (ws.foldl (hwrite v) grid) r c = if (r, c) ∈ ws then some v else grid r c := by
  induction ws generalizing grid with
  | nil => simp
  | cons w ws ih =>
    rw [List.foldl_cons, ih]
    unfold hwrite
    by_cases h : r = w.1 ∧ c = w.2
    · have : (r, c) = w := Prod.ext h.1 h.2
      by_cases hm : (r, c) ∈ ws <;> simp [h, this, hm]
    · have : ¬((r, c) = w) := fun he => h ⟨congrArg Prod.fst he, congrArg Prod.snd he⟩
      by_cases hm : (r, c) ∈ ws <;> simp [h, this, hm, List.mem_cons]

/-- Pointwise effect of rasterizing one geometry primitive into the height
grid: its elevation value lands on exactly its sampled in-range cells. -/
theorem fillGeomHeight_apply (tr : Trig) (gmin : ℚ × ℚ) (res : ℚ) (rows cols : ℤ)
    (grid : HGrid) (g : Geometry) (r c : ℤ) :
    fillGeomHeight tr gmin res rows cols grid g r c =
      if (r, c) ∈ heightCells tr gmin res rows cols g then some (elevVal g)
      else grid r c :=
  foldl_hwrite_apply _ _ _ _ _

/-- A property preserved by every successful step of an `Option`-valued
fold is preserved by the whole fold. -/
theorem foldlM_option_inv {α σ : Type _} (f : σ → α → Option σ) (P : σ → Prop)
    (l : List α) (h : ∀ s a, a ∈ l → ∀ s', P s → f s a = some s' → P s') :
    ∀ s s', P s → l.foldlM f s = some s' → P s' := by
  induction l with
  | nil => intro s s' hP hfold; simp [List.foldlM] at hfold; exact hfold ▸ hP
  | cons a l ih =>
    intro s s' hP hfold
    rw [List.foldlM_cons] at hfold
    cases hfa : f s a with
    | none => rw [hfa] at hfold; simp at hfold
    | some s1 =>
      rw [hfa] at hfold
      simp only [Option.bind_eq_bind, Option.some_bind] at hfold
      exact ih (fun s a ha s' => h s a (List.mem_cons_of_mem _ ha) s')
        s1 s' (h s a (List.mem_cons_self _ _) s1 hP hfa) hfold

/-- Splitting an `Option`-valued fold over an appended list. -/
theorem foldlM_option_append {α σ : Type _} (f : σ → α → Option σ) (l1 l2 : List α)
    (s : σ) :
    (l1 ++ l2).foldlM f s = (l1.foldlM f s).bind fun s1 => l2.foldlM f s1 := by
  induction l1 generalizing s with
  | nil => simp [List.foldlM]
  | cons a l ih =>
    rw [List.cons_append, List.foldlM_cons, List.foldlM_cons]
    cases f s a with
    | none => simp
    | some s1 => simp only [Option.bind_eq_bind, Option.some_bind]; exact ih s1

/-- Lookup in the left part of an appended association list survives the
append. -/
theorem alookup_append_left {κ β : Type _} [DecidableEq κ] (l1 l2 : List (κ × β))
    (k : κ) (v : β) (h : alookup l1 k = some v) :
    alookup (l1 ++ l2) k = some v := by
  induction l1 with
  | nil => simp [alookup] at h
  | cons p l ih =>
    rw [List.cons_append]
    unfold alookup at h ⊢
    by_cases hp : p.1 = k
    · simpa [hp] using h
    · rw [if_neg hp] at h ⊢; exact ih h

/-- Keys found in an association list are among the mapped-out keys. -/
theorem alookup_isSome_mem {κ β : Type _} [DecidableEq κ] (l : List (κ × β)) (k : κ)
    (h : (alookup l k).isSome) : k ∈ l.map Prod.fst := by
  induction l with
  | nil => simp [alookup] at h
  | cons p l ih =>
    unfold alookup at h
    by_cases hp : p.1 = k
    · simp [hp]
    · rw [if_neg hp] at h
      exact List.mem_cons_of_mem _ (ih h)

/-- A present key stays bound to the same value after appending entries. -/
theorem alookup_append_of_isSome {κ β : Type _} [DecidableEq κ] (l1 l2 : List (κ × β))
    (k : κ) (h : (alookup l1 k).isSome) :
    alookup (l1 ++ l2) k = alookup l1 k := by
  obtain ⟨v, hv⟩ := Option.isSome_iff_exists.mp h
  rw [hv]; exact alookup_append_left l1 l2 k v hv

/-- One bounds rectangle is contained in (not tighter than) another. -/
def boundsWiden (b b' : Bounds) : Prop :=
  b'.minX ≤ b.minX ∧ b.maxX ≤ b'.maxX ∧ b'.minY ≤ b.minY ∧ b.maxY ≤ b'.maxY

/-- Widening lifted to the optional (possibly still infinite) bounds state. -/
def widenO (s s' : Option Bounds) : Prop :=
  ∀ b, s = some b → ∃ b', s' = some b' ∧ boundsWiden b b'

theorem boundsWiden_refl (b : Bounds) : boundsWiden b b :=
  ⟨le_refl _, le_refl _, le_refl _, le_refl _⟩

theorem boundsWiden_trans {a b c : Bounds} (h1 : boundsWiden a b) (h2 : boundsWiden b c) :
    boundsWiden a c :=
  ⟨le_trans h2.1 h1.1, le_trans h1.2.1 h2.2.1,
   le_trans h2.2.2.1 h1.2.2.1, le_trans h1.2.2.2 h2.2.2.2⟩

theorem widenO_refl (s : Option Bounds) : widenO s s :=
  fun b hb => ⟨b, hb, boundsWiden_refl b⟩

theorem widenO_trans {s1 s2 s3 : Option Bounds} (h1 : widenO s1 s2) (h2 : widenO s2 s3) :
    widenO s1 s3 := by
  intro b hb
  obtain ⟨b2, hb2, hw2⟩ := h1 b hb
  obtain ⟨b3, hb3, hw3⟩ := h2 b2 hb2
  exact ⟨b3, hb3, boundsWiden_trans hw2 hw3⟩

/-- Folding a geometry primitive only widens the running bounds. -/
theorem widenO_foldGeomBounds (tr : Trig) (st : Option Bounds) (g : Geometry) :
    widenO st (foldGeomBounds tr st g) := by
  intro b hb
  subst hb
  refine ⟨_, rfl, ?_, ?_, ?_, ?_⟩ <;> simp [min_le_left, le_max_left]

/-- The per-lane inflation only widens the running bounds. -/
theorem widenO_laneInflate (sec : LaneSection) (lane : Lane) (st : Option Bounds) :
    widenO st (laneInflate sec lane st) := by
  intro b hb
  subst hb
  have h0 : (0 : ℚ) ≤ |sec.laneOffset_a.getD 0| + |lane.width_a.getD 0| :=
    add_nonneg (abs_nonneg _) (abs_nonneg _)
  exact ⟨_, rfl, by simpa using h0, by simpa using h0, by simpa using h0, by simpa using h0⟩

/-- A fold whose every step widens, widens. -/
theorem widenO_foldl {α : Type _} (f : Option Bounds → α → Option Bounds)
    (hstep : ∀ st a, widenO st (f st a)) :
    ∀ (l : List α) (st : Option Bounds), widenO st (l.foldl f st) := by
  intro l
  induction l with
  | nil => intro st; exact widenO_refl st
  | cons a l ih => intro st; exact widenO_trans (hstep st a) (ih (f st a))

/-- The whole per-road bounds step only widens the running bounds. -/
theorem widenO_roadBoundsStep (tr : Trig) (st : Option Bounds) (road : Road) :
    widenO st (roadBoundsStep tr st road) := by
  unfold roadBoundsStep
  have h1 : widenO st (road.geometries.foldl (foldGeomBounds tr) st) :=
    widenO_foldl _ (widenO_foldGeomBounds tr) road.geometries st
  have h2 := widenO_foldl
    (fun st2 sec => sec.lanes.foldl (fun st3 lane => laneInflate sec lane st3) st2)
    (fun st2 sec => widenO_foldl _ (fun st3 lane => widenO_laneInflate sec lane st3)
      sec.lanes st2)
    road.sections (road.geometries.foldl (foldGeomBounds tr) st)
  exact widenO_trans h1 h2

/-- A point inside a bounds rectangle. -/
def inB (b : Bounds) (x y : ℚ) : Prop :=
  b.minX ≤ x ∧ x ≤ b.maxX ∧ b.minY ≤ y ∧ y ≤ b.maxY

theorem inB_of_widen {b b' : Bounds} {x y : ℚ} (hw : boundsWiden b b') (h : inB b x y) :
    inB b' x y :=
  ⟨le_trans hw.1 h.1, le_trans h.2.1 hw.2.1,
   le_trans hw.2.2.1 h.2.2.1, le_trans h.2.2.2 hw.2.2.2⟩

/-- Right after its own fold step, a primitive's start and end points are
inside the running bounds. -/
theorem foldGeomBounds_contains (tr : Trig) (st : Option Bounds) (g : Geometry) :
    ∃ b', foldGeomBounds tr st g = some b' ∧
      inB b' g.x g.y ∧ inB b' (endX tr g) (endY tr g) := by
  cases st with
  | none =>
    refine ⟨_, rfl, ⟨?_, ?_, ?_, ?_⟩, ⟨?_, ?_, ?_, ?_⟩⟩ <;>
      simp [min_le_left, min_le_right, le_max_left, le_max_right]
  | some b =>
    refine ⟨_, rfl, ⟨?_, ?_, ?_, ?_⟩, ⟨?_, ?_, ?_, ?_⟩⟩ <;>
      simp [le_trans (min_le_right _ _) (min_le_left _ _),
            le_trans (min_le_right _ _) (min_le_right _ _),
            le_trans (le_max_left _ _) (le_max_right _ _),
            le_trans (le_max_right _ _) (le_max_right _ _), min_le_right, le_max_right]

/-- Well-formedness of the running bounds state: min never exceeds max. -/
def wfO (s : Option Bounds) : Prop :=
  ∀ b, s = some b → b.minX ≤ b.maxX ∧ b.minY ≤ b.maxY

theorem wfO_foldGeomBounds (tr : Trig) (st : Option Bounds) (g : Geometry)
    (h : wfO st) : wfO (foldGeomBounds tr st g) := by
  cases st with
  | none =>
    intro b hb
    cases hb
    exact ⟨min_le_max, min_le_max⟩
  | some b0 =>
    intro b hb
    cases hb
    obtain ⟨h1, h2⟩ := h b0 rfl
    constructor
    · exact le_trans (min_le_left _ _) (le_trans h1 (le_max_left _ _))
    · exact le_trans (min_le_left _ _) (le_trans h2 (le_max_left _ _))

theorem wfO_laneInflate (sec : LaneSection) (lane : Lane) (st : Option Bounds)
    (h : wfO st) : wfO (laneInflate sec lane st) := by
  cases st with
  | none => intro b hb; cases hb
  | some b0 =>
    intro b hb
    cases hb
    obtain ⟨h1, h2⟩ := h b0 rfl
    have h0 : (0 : ℚ) ≤ |sec.laneOffset_a.getD 0| + |lane.width_a.getD 0| :=
      add_nonneg (abs_nonneg _) (abs_nonneg _)
    constructor <;> simp <;> linarith

theorem wfO_foldl {α : Type _} (f : Option Bounds → α → Option Bounds)
    (hstep : ∀ st a, wfO st → wfO (f st a)) :
    ∀ (l : List α) (st : Option Bounds), wfO st → wfO (l.foldl f st) := by
  intro l
  induction l with
  | nil => intro st h; exact h
  | cons a l ih => intro st h; exact ih (f st a) (hstep st a h)

theorem wfO_roadBoundsStep (tr : Trig) (st : Option Bounds) (road : Road)
    (h : wfO st) : wfO (roadBoundsStep tr st road) := by
  unfold roadBoundsStep
  refine wfO_foldl _ (fun st2 sec hs => wfO_foldl _ ?_ _ _ hs) _ _
    (wfO_foldl _ (wfO_foldGeomBounds tr) _ _ h)
  exact fun st3 lane hs => wfO_laneInflate sec lane st3 hs

/-- The translation matrix acts as subtraction of the minimum corner. -/
theorem mat3_apply_transform (a b x y : ℚ) :
    mat3_apply (calculate_transform_matrix a b) x y = (x - a, y - b) := by
  unfold mat3_apply calculate_transform_matrix
  norm_num
  constructor <;> ring

/-- The final computed bounds satisfy `minX ≤ maxX` and `minY ≤ maxY`. -/
theorem calculate_map_bounds_wf (tr : Trig) (doc : XodrDoc) :
    (calculate_map_bounds tr doc).minX ≤ (calculate_map_bounds tr doc).maxX ∧
    (calculate_map_bounds tr doc).minY ≤ (calculate_map_bounds tr doc).maxY := by
  unfold calculate_map_bounds
  cases hfold : doc.roads.foldl (roadBoundsStep tr) none with
  | none => norm_num
  | some b =>
    have hwf := wfO_foldl (roadBoundsStep tr) (wfO_roadBoundsStep tr) doc.roads none
      (fun b hb => nomatch hb)
    simpa using hwf b hfold

/-- Every primitive's start and end point lies inside the final computed
bounds. -/
theorem calculate_map_bounds_contains (tr : Trig) (doc : XodrDoc) :
    ∀ road ∈ doc.roads, ∀ g ∈ road.geometries,
      inB (calculate_map_bounds tr doc) g.x g.y ∧
      inB (calculate_map_bounds tr doc) (endX tr g) (endY tr g) := by
  intro road hroad g hg
  obtain ⟨l1, l2, hsplit⟩ := List.append_of_mem hroad
  obtain ⟨g1, g2, hgsplit⟩ := List.append_of_mem hg
  have hfold : doc.roads.foldl (roadBoundsStep tr) none
      = l2.foldl (roadBoundsStep tr)
          (roadBoundsStep tr (l1.foldl (roadBoundsStep tr) none) road) := by
    rw [hsplit, List.foldl_append, List.foldl_cons]
  set st0 := l1.foldl (roadBoundsStep tr) (none : Option Bounds) with hst0
  have hgfold : road.geometries.foldl (foldGeomBounds tr) st0
      = g2.foldl (foldGeomBounds tr)
          (foldGeomBounds tr (g1.foldl (foldGeomBounds tr) st0) g) := by
    rw [hgsplit, List.foldl_append, List.foldl_cons]
  obtain ⟨b0, hb0, hin1, hin2⟩ :=
    foldGeomBounds_contains tr (g1.foldl (foldGeomBounds tr) st0) g
  have hw1 : widenO (foldGeomBounds tr (g1.foldl (foldGeomBounds tr) st0) g)
      (road.geometries.foldl (foldGeomBounds tr) st0) := by
    rw [hgfold]
    exact widenO_foldl _ (widenO_foldGeomBounds tr) g2 _
  have hw2 : widenO (road.geometries.foldl (foldGeomBounds tr) st0)
      (roadBoundsStep tr st0 road) := by
    unfold roadBoundsStep
    exact widenO_foldl _
      (fun st2 sec => widenO_foldl _ (fun st3 lane => widenO_laneInflate sec lane st3)
        sec.lanes st2) road.sections _
  have hw3 : widenO (roadBoundsStep tr st0 road)
      (doc.roads.foldl (roadBoundsStep tr) none) := by
    rw [hfold]
    exact widenO_foldl _ (widenO_roadBoundsStep tr) l2 _
  obtain ⟨bf, hbf, hwb⟩ := widenO_trans hw1 (widenO_trans hw2 hw3) b0 hb0
  have hres : calculate_map_bounds tr doc = bf := by
    unfold calculate_map_bounds
    rw [hbf]
  rw [hres]
  exact ⟨inB_of_widen hwb hin1, inB_of_widen hwb hin2⟩

/-- Representative trigonometric instance at heading 0: `np.cos(0) = 1.0`
and `np.sin(0) = 0.0` exactly. -/
def trigH : Trig := ⟨fun _ => 1, fun _ => 0⟩

/-- The single lane of the end-to-end scenario: type `"driving"`, a
`<width>` element with `a = 3.5`. -/
def c1lane : Lane := ⟨some "driving", none, some (7/2), none, none, none⟩

/-- The road of the end-to-end scenario: a single geometry primitive starting
at the origin with heading 0 and length 10, one lane section with the single
driving lane of width 3.5. -/
def c1road : Road := ⟨[⟨0, 0, 0, 10, none⟩], [⟨none, [c1lane]⟩], none, none⟩

/-- The end-to-end scenario document: just the one road. -/
def c1doc : XodrDoc := ⟨[c1road]⟩

/-- C6: for every road set containing at least one geometry primitive, the
computed bounds satisfy `minX ≤ maxX` and `minY ≤ maxY`, every primitive
start and end point lies within `[minX,maxX]×[minY,maxY]`, and applying the
translation-only transform `T = [[1,0,-minX],[0,1,-minY],[0,0,1]]` to any
such in-bounds point — in particular to `(minX, minY)`, which maps to
`(0,0)` — yields non-negative coordinates. -/
theorem c6_bounds_invariant (tr : Trig) (doc : XodrDoc)
    (_hne : ∃ road ∈ doc.roads, road.geometries ≠ []) :
    ((calculate_map_bounds tr doc).minX ≤ (calculate_map_bounds tr doc).maxX ∧
      (calculate_map_bounds tr doc).minY ≤ (calculate_map_bounds tr doc).maxY) ∧
    (∀ road ∈ doc.roads, ∀ g ∈ road.geometries,
      inB (calculate_map_bounds tr doc) g.x g.y ∧
      inB (calculate_map_bounds tr doc) (endX tr g) (endY tr g)) ∧
    (∀ x y : ℚ, inB (calculate_map_bounds tr doc) x y →
      0 ≤ (mat3_apply (calculate_transform_matrix (calculate_map_bounds tr doc).minX
            (calculate_map_bounds tr doc).minY) x y).1 ∧
      0 ≤ (mat3_apply (calculate_transform_matrix (calculate_map_bounds tr doc).minX
            (calculate_map_bounds tr doc).minY) x y).2) ∧
    mat3_apply (calculate_transform_matrix (calculate_map_bounds tr doc).minX
        (calculate_map_bounds tr doc).minY)
      (calculate_map_bounds tr doc).minX (calculate_map_bounds tr doc).minY = (0, 0) := by
  refine ⟨calculate_map_bounds_wf tr doc, calculate_map_bounds_contains tr doc, ?_, ?_⟩
  · intro x y hxy
    rw [mat3_apply_transform]
    exact ⟨by simpa using sub_nonneg.mpr hxy.1, by simpa using sub_nonneg.mpr hxy.2.2.1⟩
  · rw [mat3_apply_transform]
    norm_num

/-- Witness for C6 at the concrete end-to-end scenario document. -/
theorem c6_bounds_invariant_witness :
    ((calculate_map_bounds trigH c1doc).minX ≤ (calculate_map_bounds trigH c1doc).maxX ∧
      (calculate_map_bounds trigH c1doc).minY ≤ (calculate_map_bounds trigH c1doc).maxY) ∧
    (∀ road ∈ c1doc.roads, ∀ g ∈ road.geometries,
      inB (calculate_map_bounds trigH c1doc) g.x g.y ∧
      inB (calculate_map_bounds trigH c1doc) (endX trigH g) (endY trigH g)) ∧
    (∀ x y : ℚ, inB (calculate_map_bounds trigH c1doc) x y →
      0 ≤ (mat3_apply (calculate_transform_matrix (calculate_map_bounds trigH c1doc).minX
            (calculate_map_bounds trigH c1doc).minY) x y).1 ∧
      0 ≤ (mat3_apply (calculate_transform_matrix (calculate_map_bounds trigH c1doc).minX
            (calculate_map_bounds trigH c1doc).minY) x y).2) ∧
    mat3_apply (calculate_transform_matrix (calculate_map_bounds trigH c1doc).minX
        (calculate_map_bounds trigH c1doc).minY)
      (calculate_map_bounds trigH c1doc).minX (calculate_map_bounds trigH c1doc).minY
      = (0, 0) :=
  c6_bounds_invariant trigH c1doc ⟨c1road, by simp [c1doc], by simp [c1road]⟩

/-- A document with zero roads. -/
def emptyDoc : XodrDoc := ⟨[]⟩

/-- Trigonometric instance with `cos = -1`, `sin = 0`: the exact float
values of `np.cos`/`np.sin` cannot both be hit at the float nearest `π`
(`np.sin` is ≈ 1.2e-16 there), but the claim only depends on the cosine
being `-1`; the sine value is irrelevant to the `xMin > xMax` inversion. -/
def trigPi : Trig := ⟨fun _ => -1, fun _ => 0⟩

/-- A geometry primitive with heading ≈ π and length 10 (> nominal width). -/
def gPi : Geometry := ⟨0, 0, 314159/100000, 10, none⟩

/-- A document holding just the reversed primitive. -/
def docPi : XodrDoc := ⟨[⟨[gPi], [], none, none⟩]⟩

/-- C10: the bounding-box extractor computes `xMin`/`yMin` solely from the
primitive's start point minus half the nominal width and `xMax`/`yMax`
solely from the computed end point plus half the nominal width, without
sorting the corners; consequently, for a primitive with heading π and
length 10, the emitted row has `xMin > xMax`. -/
theorem c10_bbox_no_sorting :
    (∀ (tr : Trig) (doc : XodrDoc) (row : List ℚ),
      row ∈ xodr_to_bbox_table tr doc ↔
        ∃ road ∈ doc.roads, ∃ g ∈ road.geometries,
          row = [g.x - 7/4, g.y - 7/4, endX tr g + 7/4, endY tr g + 7/4]) ∧
    xodr_to_bbox_table trigPi docPi = [[-7/4, -7/4, -33/4, 7/4]] ∧
    (∃ row ∈ xodr_to_bbox_table trigPi docPi, row.getD 0 0 > row.getD 2 0) := by
  refine ⟨?_, ?_, ?_⟩
  · intro tr doc row
    simp [xodr_to_bbox_table, List.mem_flatMap, List.mem_map]
    constructor
    · rintro ⟨road, hroad, g, hg, hrow⟩
      exact ⟨road, hroad, g, hg, hrow.symm⟩
    · rintro ⟨road, hroad, g, hg, hrow⟩
      exact ⟨road, hroad, g, hg, hrow.symm⟩
  · norm_num [xodr_to_bbox_table, docPi, gPi, trigPi, endX, endY]
  · refine ⟨[-7/4, -7/4, -33/4, 7/4], ?_, by norm_num⟩
    norm_num [xodr_to_bbox_table, docPi, gPi, trigPi, endX, endY]

/-- C4 counterexample: at the fallback bounds `(0,1,0,1)` and resolution
0.4, the single-document grid allocates 2 rows while
`ceil(height/resolution)` is 3, so rows cannot equal the ceiling plus any
non-negative constant. -/
theorem c4_counterexample :
    (parse_xodr_to_driveable_area trigH emptyDoc (2/5)).dims = (2, 2) ∧
    (parse_xodr_to_driveable_area trigH emptyDoc (2/5)).dims.1 <
      ⌈((calculate_map_bounds trigH emptyDoc).maxY -
          (calculate_map_bounds trigH emptyDoc).minY) / (2/5)⌉ := by
  constructor
  · decide
  · decide

/-- C4 (amended): the batch/global allocation uses
`rows = ceil(height/res) + 1`, `cols = ceil(width/res) + 1`, while the
single-document allocation truncates — `rows = floor(height/res)`,
`cols = floor(width/res)` with no additive constant — and is therefore
always strictly smaller than the batch allocation. -/
theorem c4_grid_dims (b : Bounds) (res : ℚ) (hres : 0 < res)
    (hx : b.minX ≤ b.maxX) (hy : b.minY ≤ b.maxY) :
    singleGridDims b res = (⌊(b.maxY - b.minY) / res⌋, ⌊(b.maxX - b.minX) / res⌋) ∧
    batchGridDims b res = (⌈(b.maxY - b.minY) / res⌉ + 1, ⌈(b.maxX - b.minX) / res⌉ + 1) ∧
    (singleGridDims b res).1 < (batchGridDims b res).1 ∧
    (singleGridDims b res).2 < (batchGridDims b res).2 := by
  have hqy : 0 ≤ (b.maxY - b.minY) / res := div_nonneg (by linarith) hres.le
  have hqx : 0 ≤ (b.maxX - b.minX) / res := div_nonneg (by linarith) hres.le
  have h1 : truncInt ((b.maxY - b.minY) / res) = ⌊(b.maxY - b.minY) / res⌋ := by
    unfold truncInt; rw [if_neg (not_lt.mpr hqy)]
  have h2 : truncInt ((b.maxX - b.minX) / res) = ⌊(b.maxX - b.minX) / res⌋ := by
    unfold truncInt; rw [if_neg (not_lt.mpr hqx)]
  refine ⟨by simp [singleGridDims, h1, h2], rfl, ?_, ?_⟩
  · simp only [singleGridDims, batchGridDims, h1]
    exact lt_of_le_of_lt (Int.floor_le_ceil _) (lt_add_one _)
  · simp only [singleGridDims, batchGridDims, h2]
    exact lt_of_le_of_lt (Int.floor_le_ceil _) (lt_add_one _)

/-- Witness for the amended C4 at the fallback bounds and resolution 0.5. -/
theorem c4_grid_dims_witness :
    singleGridDims ⟨0, 1, 0, 1⟩ (1/2)
        = (⌊((1:ℚ) - 0) / (1/2)⌋, ⌊((1:ℚ) - 0) / (1/2)⌋) ∧
    batchGridDims ⟨0, 1, 0, 1⟩ (1/2)
        = (⌈((1:ℚ) - 0) / (1/2)⌉ + 1, ⌈((1:ℚ) - 0) / (1/2)⌉ + 1) ∧
    (singleGridDims ⟨0, 1, 0, 1⟩ (1/2)).1 < (batchGridDims ⟨0, 1, 0, 1⟩ (1/2)).1 ∧
    (singleGridDims ⟨0, 1, 0, 1⟩ (1/2)).2 < (batchGridDims ⟨0, 1, 0, 1⟩ (1/2)).2 :=
  c4_grid_dims ⟨0, 1, 0, 1⟩ (1/2) (by norm_num) (by norm_num) (by norm_num)

/-- C7: height-grid writes are last-write-wins and order-dependent: if two
geometry primitives both sample the same cell, processing `[A, B]` leaves
B's elevation in that cell and `[B, A]` leaves A's; each ordering is a
deterministic function of the traversal order. -/
theorem c7_height_last_write_wins (tr : Trig) (gmin : ℚ × ℚ) (res : ℚ) (rows cols : ℤ)
    (grid : HGrid) (A B : Geometry) (r c : ℤ)
    (hA : (r, c) ∈ heightCells tr gmin res rows cols A)
    (hB : (r, c) ∈ heightCells tr gmin res rows cols B) :
    fillGeomsHeight tr gmin res rows cols grid [A, B] r c = some (elevVal B) ∧
    fillGeomsHeight tr gmin res rows cols grid [B, A] r c = some (elevVal A) := by
  constructor
  · show fillGeomHeight tr gmin res rows cols
      (fillGeomHeight tr gmin res rows cols grid A) B r c = some (elevVal B)
    rw [fillGeomHeight_apply, if_pos hB]
  · show fillGeomHeight tr gmin res rows cols
      (fillGeomHeight tr gmin res rows cols grid B) A r c = some (elevVal A)
    rw [fillGeomHeight_apply, if_pos hA]

/-- A primitive with elevation 5 used in the height-grid witness. -/
def geomA : Geometry := ⟨0, 0, 0, 1, some 5⟩

/-- A primitive with elevation 7 overlapping `geomA`'s cells. -/
def geomB : Geometry := ⟨0, 0, 0, 1, some 7⟩

/-- Witness for C7: the two overlapping primitives at cell `(0,0)`. -/
theorem c7_height_last_write_wins_witness :
    fillGeomsHeight trigH (0, 0) (1/2) 4 4 nanHGrid [geomA, geomB] 0 0 = some (elevVal geomB) ∧
    fillGeomsHeight trigH (0, 0) (1/2) 4 4 nanHGrid [geomB, geomA] 0 0 = some (elevVal geomA) :=
  c7_height_last_write_wins trigH (0, 0) (1/2) 4 4 nanHGrid geomA geomB 0 0
    (by decide) (by decide)

/-- C8: an input document with zero roads yields the fallback bounds
`(0,1,0,1)`, a 2×2 grid (at resolution 0.5) in which every cell is 0, and a
vector graph with no nodes and no ways. -/
theorem c8_zero_roads (tr : Trig) (fuel : ℕ) (r : Rng) (ex : List ℕ) :
    calculate_map_bounds tr emptyDoc = ⟨0, 1, 0, 1⟩ ∧
    (parse_xodr_to_driveable_area tr emptyDoc (1/2)).dims = (2, 2) ∧
    (∀ row col : ℤ, (parse_xodr_to_driveable_area tr emptyDoc (1/2)).grid row col = 0) ∧
    (parse_xodr_to_vector_map fuel emptyDoc r ex).map
      (fun st => (st.nodes, st.ways, st.mapping)) = some ([], [], []) := by
  have hdims : (parse_xodr_to_driveable_area tr emptyDoc (1/2)).dims
      = singleGridDims ⟨0, 1, 0, 1⟩ (1/2) := rfl
  refine ⟨rfl, ?_, fun row col => rfl, rfl⟩
  rw [hdims]
  decide

/-- C1: for the single-document pipeline on one road whose only primitive
starts at the origin with heading 0 and length 10, with one driving lane of
width 3.5 at resolution 0.5: the bounds are `(-3.5, 13.5, -3.5, 3.5)`, the
occupancy grid contains at least one cell set to 1, and the bbox table is
exactly one row `[-1.75, -1.75, 11.75, 1.75]`. -/
theorem c1_end_to_end (tr : Trig) (h1 : tr.cos 0 = 1) (h2 : tr.sin 0 = 0) :
    calculate_map_bounds tr c1doc = ⟨-7/2, 27/2, -7/2, 7/2⟩ ∧
    (∃ row col : ℤ, (parse_xodr_to_driveable_area tr c1doc (1/2)).grid row col = 1) ∧
    xodr_to_bbox_table tr c1doc = [[-7/4, -7/4, 47/4, 7/4]] := by
  have hb : calculate_map_bounds tr c1doc = ⟨-7/2, 27/2, -7/2, 7/2⟩ := by
    norm_num [calculate_map_bounds, c1doc, c1road, c1lane, roadBoundsStep, foldGeomBounds,
      laneInflate, endX, endY, h1, h2, min_def, max_def,
      abs_of_nonneg (show (0:ℚ) ≤ 7/2 by norm_num)]
  refine ⟨hb, ?_, ?_⟩
  · refine ⟨7, 7, ?_⟩
    show applyWrites (singleWrites tr c1doc (1/2)) zeroAGrid 7 7 = 1
    rw [applyWrites_eq_one]
    left
    simp only [singleWrites, hb]
    simp only [c1doc, c1road, c1lane, List.flatMap_cons, List.flatMap_nil, List.append_nil,
      h1, h2]
    decide
  · norm_num [xodr_to_bbox_table, c1doc, c1road, endX, endY, h1, h2]

/-- Witness for C1 at the exact trig values of heading 0. -/
theorem c1_end_to_end_witness :
    calculate_map_bounds trigH c1doc = ⟨-7/2, 27/2, -7/2, 7/2⟩ ∧
    (∃ row col : ℤ, (parse_xodr_to_driveable_area trigH c1doc (1/2)).grid row col = 1) ∧
    xodr_to_bbox_table trigH c1doc = [[-7/4, -7/4, 47/4, 7/4]] :=
  c1_end_to_end trigH rfl rfl

/-- Membership in a conditionally empty list. -/
theorem mem_ite_nil_left {α : Type _} {P : Prop} [Decidable P] (a : α) (l : List α) :
    (a ∈ if P then [] else l) ↔ ¬P ∧ a ∈ l := by
  split <;> simp [*]

/-- A guarded singleton option yields a value iff the guard holds. -/
theorem ite_some_none_eq_some_iff {α : Type _} {P : Prop} [Decidable P] {a b : α} :
    ((if P then some a else none) = some b) ↔ P ∧ a = b := by
  split <;> simp [*]

/-- Membership in a list produced by eliminating an option (empty on
`none`). -/
theorem mem_option_elim_nil {α β : Type _} (o : Option β) (f : β → List α) (a : α) :
    (a ∈ o.elim [] f) ↔ ∃ v, o = some v ∧ a ∈ f v := by
  cases o <;> simp

/-- C3 (amended): exact write-set characterization of both rasterizers.
The single-document rasterizer samples arc lengths `i·res` for
`0 ≤ i < int(length/res)` (the full length is not sampled) and writes only
for lanes of type `"driving"` with nonzero width; the batch rasterizer
samples `0 ≤ step ≤ int(length/res)` and writes for lanes of type
`"driving"` that carry a `<width>` element, including zero width.  Both
sample lateral offsets `w` from `-width` to `+width` in increments of `res`
and project `(x + w·sin(hdg), y − w·cos(hdg))`, dropping out-of-range
cells. -/
theorem c3_raster_write_sets :
    (∀ (tr : Trig) (doc : XodrDoc) (res : ℚ) (r c : ℤ),
      (parse_xodr_to_driveable_area tr doc res).grid r c = 1 ↔
        ∃ road ∈ doc.roads, ∃ g ∈ road.geometries, ∃ sec ∈ road.sections,
          ∃ lane ∈ sec.lanes,
            (¬laneWidthVal lane = 0 ∧ lane.type_attr = some "driving") ∧
            ∃ i ∈ pyRange (truncInt (g.length / res)),
              ∃ w ∈ arange (-laneWidthVal lane) (laneWidthVal lane + res) res,
                (0 ≤ truncInt ((g.x + -(calculate_map_bounds tr doc).minX +
                      (i : ℚ) * res * tr.cos g.hdg + w * tr.sin g.hdg) / res) ∧
                  truncInt ((g.x + -(calculate_map_bounds tr doc).minX +
                      (i : ℚ) * res * tr.cos g.hdg + w * tr.sin g.hdg) / res) <
                    (singleGridDims (calculate_map_bounds tr doc) res).2 ∧
                  0 ≤ truncInt ((g.y + -(calculate_map_bounds tr doc).minY +
                      (i : ℚ) * res * tr.sin g.hdg - w * tr.cos g.hdg) / res) ∧
                  truncInt ((g.y + -(calculate_map_bounds tr doc).minY +
                      (i : ℚ) * res * tr.sin g.hdg - w * tr.cos g.hdg) / res) <
                    (singleGridDims (calculate_map_bounds tr doc) res).1) ∧
                truncInt ((g.y + -(calculate_map_bounds tr doc).minY +
                    (i : ℚ) * res * tr.sin g.hdg - w * tr.cos g.hdg) / res) = r ∧
                truncInt ((g.x + -(calculate_map_bounds tr doc).minX +
                    (i : ℚ) * res * tr.cos g.hdg + w * tr.sin g.hdg) / res) = c) ∧
    (∀ (tr : Trig) (docs : List XodrDoc) (res : ℚ) (gb : Bounds) (r c : ℤ),
      batch_fill_driveable tr docs res gb r c = 1 ↔
        ∃ doc ∈ docs, ∃ road ∈ doc.roads, ∃ g ∈ road.geometries, ∃ sec ∈ road.sections,
          ∃ lane ∈ sec.lanes,
            lane.type_attr = some "driving" ∧
            ∃ lw, lane.width_a = some lw ∧
            ∃ step ∈ pyRange (truncInt (g.length / res) + 1),
              ∃ offset ∈ arange (-lw) (lw + res) res,
                (0 ≤ truncInt ((g.y - gb.minY + (step : ℚ) * res * tr.sin g.hdg -
                      offset * tr.cos g.hdg) / res) ∧
                  truncInt ((g.y - gb.minY + (step : ℚ) * res * tr.sin g.hdg -
                      offset * tr.cos g.hdg) / res) < (batchGridDims gb res).1 ∧
                  0 ≤ truncInt ((g.x - gb.minX + (step : ℚ) * res * tr.cos g.hdg +
                      offset * tr.sin g.hdg) / res) ∧
                  truncInt ((g.x - gb.minX + (step : ℚ) * res * tr.cos g.hdg +
                      offset * tr.sin g.hdg) / res) < (batchGridDims gb res).2) ∧
                truncInt ((g.y - gb.minY + (step : ℚ) * res * tr.sin g.hdg -
                    offset * tr.cos g.hdg) / res) = r ∧
                truncInt ((g.x - gb.minX + (step : ℚ) * res * tr.cos g.hdg +
                    offset * tr.sin g.hdg) / res) = c) := by
  constructor
  · intro tr doc res r c
    show applyWrites (singleWrites tr doc res) zeroAGrid r c = 1 ↔ _
    rw [applyWrites_eq_one]
    simp only [singleWrites, zeroAGrid, List.mem_flatMap, mem_ite_nil_left, not_or, not_not,
      List.mem_filterMap, ite_some_none_eq_some_iff, Prod.mk.injEq, zero_ne_one, or_false]
  · intro tr docs res gb r c
    show applyWrites (batchWrites tr docs res gb) zeroAGrid r c = 1 ↔ _
    rw [applyWrites_eq_one]
    simp only [batchWrites, zeroAGrid, List.mem_flatMap, mem_ite_nil_left, not_not,
      mem_option_elim_nil, List.mem_filterMap, ite_some_none_eq_some_iff, Prod.mk.injEq,
      zero_ne_one, or_false]

/-- A driving lane whose `<width>` element carries `a = 0`. -/
def laneW : Lane := ⟨some "driving", none, some 0, none, none, none⟩

/-- A one-road document with a zero-width driving lane (length 1, heading
0). -/
def docW : XodrDoc := ⟨[⟨[⟨0, 0, 0, 1, none⟩], [⟨none, [laneW]⟩], none, none⟩]⟩

set_option maxRecDepth 8000 in
/-- C3 counterexample: the single-document rasterizer does not cover arc
length `length` (its last sample is `length − res`), so the scenario road's
far-end cell `(7, 27)` stays 0; and the batch rasterizer does write cells
for a driving lane of width 0, refuting both the "0 to length inclusive"
and the "only nonzero width" parts of the claim as one universal
statement. -/
theorem c3_raster_counterexample :
    (parse_xodr_to_driveable_area trigH c1doc (1/2)).grid 7 27 = 0 ∧
    (10 : ℚ) ∉ (pyRange (truncInt ((10 : ℚ) / (1/2)))).map (fun i => (i : ℚ) * (1/2)) ∧
    laneWidthVal laneW = 0 ∧
    globalBounds trigH [docW] = some ⟨0, 1, 0, 0⟩ ∧
    batch_fill_driveable trigH [docW] (1/2) ⟨0, 1, 0, 0⟩ 0 0 = 1 := by
  refine ⟨?_, by decide, by decide, by decide, by decide⟩
  decide

/-- Specification of a successful `generate_unique_lane_id` call: the issued
identifier is fresh, 7-digit, and is pushed onto the issued set. -/
theorem generate_unique_lane_id_spec :
    ∀ (fuel : ℕ) (r : Rng) (ex : List ℕ) (q : ℕ × Rng × List ℕ),
      generate_unique_lane_id fuel r ex = some q →
      q.1 ∉ ex ∧ q.2.2 = q.1 :: ex ∧ 1000000 ≤ q.1 ∧ q.1 ≤ 9999999 := by
  intro fuel
  induction fuel with
  | zero => intro r ex q h; simp [generate_unique_lane_id] at h
  | succ n ih =>
    intro r ex q h
    unfold generate_unique_lane_id at h
    by_cases hm : (randint7 r).1 ∈ ex
    · rw [if_pos hm] at h
      exact ih _ _ _ h
    · rw [if_neg hm] at h
      obtain rfl := (Option.some.inj h).symm
      have hlt : r.f r.n % 9000000 < 9000000 := Nat.mod_lt _ (by norm_num)
      exact ⟨hm, rfl, by simp [randint7], by simp only [randint7]; omega⟩

/-- Identifier-hygiene invariant of the single-file compiler state: every
issued identifier is recorded in the issued set, is 7-digit, and the issued
identifiers are pairwise distinct. -/
def idsInvP (st : PState) : Prop :=
  (∀ id ∈ st.mapping.map Prod.snd, id ∈ st.existing ∧ 1000000 ≤ id ∧ id ≤ 9999999) ∧
  (st.mapping.map Prod.snd).Nodup

theorem idsInvP_of_fields {st st' : PState} (h1 : st'.mapping = st.mapping)
    (h2 : st'.existing = st.existing) (hP : idsInvP st) : idsInvP st' := by
  unfold idsInvP at *
  rw [h1, h2]
  exact hP

/-- The geometry-node loop does not touch ways, mapping, identifiers or the
random state. -/
theorem roadGeomNodes_fields (st : PState) (road : Road) :
    (roadGeomNodes st road).1.ways = st.ways ∧
    (roadGeomNodes st road).1.mapping = st.mapping ∧
    (roadGeomNodes st road).1.existing = st.existing ∧
    (roadGeomNodes st road).1.rng = st.rng ∧
    (roadGeomNodes st road).1.tableIdx = st.tableIdx := by
  unfold roadGeomNodes
  suffices h : ∀ (gs : List Geometry) (p : PState × List VNode),
      ((gs.foldl (fun (p : PState × List VNode) g =>
        let node : VNode := ⟨p.1.nodeId, g.x, g.y⟩
        ({ p.1 with nodes := p.1.nodes ++ [node], nodeId := p.1.nodeId + 1 }, p.2 ++ [node])) p).1.ways
          = p.1.ways ∧
       (gs.foldl _ p).1.mapping = p.1.mapping ∧
       (gs.foldl _ p).1.existing = p.1.existing ∧
       (gs.foldl _ p).1.rng = p.1.rng ∧
       (gs.foldl _ p).1.tableIdx = p.1.tableIdx) by
    exact h road.geometries (st, [])
  intro gs
  induction gs with
  | nil => intro p; exact ⟨rfl, rfl, rfl, rfl, rfl⟩
  | cons g gs ih =>
    intro p
    simpa using ih _

/-- Effect of one lane step of the single-file compiler. -/
theorem processLaneS_effect (fuel : ℕ) (road : Road) (geom : List VNode) (st : PState)
    (lane : Lane) (st' : PState) (h : processLaneS fuel road geom st lane = some st') :
    ∃ q : ℕ × Rng × List ℕ,
      generate_unique_lane_id fuel st.rng st.existing = some q ∧
      st'.mapping = st.mapping ++ [(toString st.tableIdx, q.1)] ∧
      st'.ways = st.ways ++ [{
        lane_id := q.1
        lane_type := lane.type_attr.getD "driving"
        width := lane.width_attr.getD "3.5"
        geometry := geom
        predecessor := predList road
        successor := succList road
        l_neighbor := lane.l_neighbor.getD "None"
        r_neighbor := lane.r_neighbor.getD "None" }] ∧
      st'.existing = q.2.2 := by
  unfold processLaneS at h
  rw [Option.map_eq_some'] at h
  obtain ⟨q, hq, hst⟩ := h
  exact ⟨q, hq, by rw [← hst], by rw [← hst], by rw [← hst]⟩

theorem processLaneS_idsInv (fuel : ℕ) (road : Road) (geom : List VNode) (st : PState)
    (lane : Lane) (st' : PState) (h : processLaneS fuel road geom st lane = some st')
    (hP : idsInvP st) : idsInvP st' := by
  obtain ⟨q, hq, hmap, _hways, hex⟩ := processLaneS_effect fuel road geom st lane st' h
  obtain ⟨hfresh, hexq, hlo, hhi⟩ := generate_unique_lane_id_spec fuel st.rng st.existing q hq
  constructor
  · intro id hid
    rw [hmap] at hid
    simp only [List.map_append, List.map_cons, List.map_nil, List.mem_append,
      List.mem_cons, List.not_mem_nil, or_false] at hid
    rcases hid with hid | hid
    · obtain ⟨hmem, hr⟩ := hP.1 id hid
      exact ⟨by rw [hex, hexq]; exact List.mem_cons_of_mem _ hmem, hr⟩
    · subst hid
      exact ⟨by rw [hex, hexq]; exact List.mem_cons_self _ _, hlo, hhi⟩
  · rw [hmap]
    simp only [List.map_append, List.map_cons, List.map_nil]
    rw [List.nodup_append]
    refine ⟨hP.2, List.nodup_singleton _, ?_⟩
    intro x hx hmem
    simp only [List.mem_cons, List.not_mem_nil, or_false] at hmem
    subst hmem
    exact hfresh (hP.1 _ hx).1

theorem processRoadS_idsInv (fuel : ℕ) (st : PState) (road : Road) (st' : PState)
    (h : processRoadS fuel st road = some st') (hP : idsInvP st) : idsInvP st' := by
  unfold processRoadS at h
  have hfields := roadGeomNodes_fields st road
  have hP1 : idsInvP (roadGeomNodes st road).1 :=
    idsInvP_of_fields hfields.2.1 hfields.2.2.1 hP
  exact foldlM_option_inv _ idsInvP road.sections
    (fun s sec _ s' hPs hstep =>
      foldlM_option_inv _ idsInvP sec.lanes
        (fun s2 lane _ s2' hP2 hl => processLaneS_idsInv fuel road _ s2 lane s2' hl hP2)
        s s' hPs hstep)
    _ st' hP1 h

/-- Identifier hygiene holds at the end of every successful single-file
compilation. -/
theorem parse_xodr_to_vector_map_idsInv (fuel : ℕ) (doc : XodrDoc) (r : Rng)
    (ex : List ℕ) (st' : PState) (h : parse_xodr_to_vector_map fuel doc r ex = some st') :
    idsInvP st' := by
  unfold parse_xodr_to_vector_map at h
  exact foldlM_option_inv _ idsInvP doc.roads
    (fun s road _ s' hPs hstep => processRoadS_idsInv fuel s road s' hstep hPs)
    _ st' ⟨by simp, by simp⟩ h

/-- Node dedup does not touch ways, mapping, identifiers or the random
state. -/
theorem processGeomNode_fields (p : GState × List VNode) (g : Geometry) :
    (processGeomNode p g).1.ways = p.1.ways ∧
    (processGeomNode p g).1.mapping = p.1.mapping ∧
    (processGeomNode p g).1.existing = p.1.existing ∧
    (processGeomNode p g).1.rng = p.1.rng ∧
    (processGeomNode p g).1.tableIdx = p.1.tableIdx := by
  dsimp only [processGeomNode]
  split <;> exact ⟨rfl, rfl, rfl, rfl, rfl⟩

theorem processRoadNodes_fields (st : GState) (road : Road) :
    (processRoadNodes st road).1.ways = st.ways ∧
    (processRoadNodes st road).1.mapping = st.mapping ∧
    (processRoadNodes st road).1.existing = st.existing ∧
    (processRoadNodes st road).1.rng = st.rng ∧
    (processRoadNodes st road).1.tableIdx = st.tableIdx := by
  unfold processRoadNodes
  suffices h : ∀ (gs : List Geometry) (p : GState × List VNode),
      ((gs.foldl processGeomNode p).1.ways = p.1.ways ∧
       (gs.foldl processGeomNode p).1.mapping = p.1.mapping ∧
       (gs.foldl processGeomNode p).1.existing = p.1.existing ∧
       (gs.foldl processGeomNode p).1.rng = p.1.rng ∧
       (gs.foldl processGeomNode p).1.tableIdx = p.1.tableIdx) by
    exact h road.geometries (st, [])
  intro gs
  induction gs with
  | nil => intro p; exact ⟨rfl, rfl, rfl, rfl, rfl⟩
  | cons g gs ih =>
    intro p
    have hstep := processGeomNode_fields p g
    have hrest := ih (processGeomNode p g)
    rw [List.foldl_cons]
    exact ⟨hrest.1.trans hstep.1, hrest.2.1.trans hstep.2.1,
      hrest.2.2.1.trans hstep.2.2.1, hrest.2.2.2.1.trans hstep.2.2.2.1,
      hrest.2.2.2.2.trans hstep.2.2.2.2⟩

/-- Identifier-hygiene invariant of the global dedup state. -/
def idsInvG (st : GState) : Prop :=
  (∀ id ∈ st.mapping.map Prod.snd, id ∈ st.existing ∧ 1000000 ≤ id ∧ id ≤ 9999999) ∧
  (st.mapping.map Prod.snd).Nodup

theorem idsInvG_of_fields {st st' : GState} (h1 : st'.mapping = st.mapping)
    (h2 : st'.existing = st.existing) (hP : idsInvG st) : idsInvG st' := by
  unfold idsInvG at *
  rw [h1, h2]
  exact hP

/-- Effect of one lane step of the dedup compiler: either the key was
already present and the state is unchanged, or a fresh way is appended. -/
theorem processLaneG_effect (fuel : ℕ) (roadNodes : List VNode) (st : GState)
    (lane : Lane) (st' : GState) (h : processLaneG fuel roadNodes st lane = some st') :
    (alookup st.ways (laneKeyOf roadNodes lane) ≠ none ∧ st' = st) ∨
    (alookup st.ways (laneKeyOf roadNodes lane) = none ∧
      ∃ q : ℕ × Rng × List ℕ,
        generate_unique_lane_id fuel st.rng st.existing = some q ∧
        st'.ways = st.ways ++ [(laneKeyOf roadNodes lane, {
          lane_id := q.1
          lane_type := lane.type_attr.getD "driving"
          width := lane.width_attr.getD "3.5"
          geometry := roadNodes
          predecessor := []
          successor := []
          l_neighbor := match lane.neighbors_lr with
            | some nb => nb.1.getD "None"
            | none => "None"
          r_neighbor := match lane.neighbors_lr with
            | some nb => nb.2.getD "None"
            | none => "None" })] ∧
        st'.mapping = st.mapping ++ [(toString st.tableIdx, q.1)] ∧
        st'.existing = q.2.2 ∧
        st'.nodes = st.nodes) := by
  dsimp only [processLaneG] at h
  cases hlk : alookup st.ways (laneKeyOf roadNodes lane) with
  | some w =>
    rw [hlk] at h
    exact Or.inl ⟨by simp [hlk], (Option.some.inj h).symm⟩
  | none =>
    rw [hlk] at h
    rw [Option.map_eq_some'] at h
    obtain ⟨q, hq, hst⟩ := h
    exact Or.inr ⟨rfl, q, hq, by rw [← hst], by rw [← hst], by rw [← hst], by rw [← hst]⟩

theorem processLaneG_idsInv (fuel : ℕ) (roadNodes : List VNode) (st : GState)
    (lane : Lane) (st' : GState) (h : processLaneG fuel roadNodes st lane = some st')
    (hP : idsInvG st) : idsInvG st' := by
  rcases processLaneG_effect fuel roadNodes st lane st' h with ⟨_, rfl⟩ | ⟨_, q, hq, _, hmap, hex, _⟩
  · exact hP
  · obtain ⟨hfresh, hexq, hlo, hhi⟩ := generate_unique_lane_id_spec fuel st.rng st.existing q hq
    constructor
    · intro id hid
      rw [hmap] at hid
      simp only [List.map_append, List.map_cons, List.map_nil, List.mem_append,
        List.mem_cons, List.not_mem_nil, or_false] at hid
      rcases hid with hid | hid
      · obtain ⟨hmem, hr⟩ := hP.1 id hid
        exact ⟨by rw [hex, hexq]; exact List.mem_cons_of_mem _ hmem, hr⟩
      · subst hid
        exact ⟨by rw [hex, hexq]; exact List.mem_cons_self _ _, hlo, hhi⟩
    · rw [hmap]
      simp only [List.map_append, List.map_cons, List.map_nil]
      rw [List.nodup_append]
      refine ⟨hP.2, List.nodup_singleton _, ?_⟩
      intro x hx hmem
      simp only [List.mem_cons, List.not_mem_nil, or_false] at hmem
      subst hmem
      exact hfresh (hP.1 _ hx).1

theorem processRoadG_idsInv (fuel : ℕ) (st : GState) (road : Road) (st' : GState)
    (h : processRoadG fuel st road = some st') (hP : idsInvG st) : idsInvG st' := by
  unfold processRoadG at h
  have hfields := processRoadNodes_fields st road
  have hP1 : idsInvG (processRoadNodes st road).1 :=
    idsInvG_of_fields hfields.2.1 hfields.2.2.1 hP
  by_cases hempty : (processRoadNodes st road).2 = []
  · rw [if_pos hempty] at h
    exact (Option.some.inj h) ▸ hP1
  · rw [if_neg hempty] at h
    exact foldlM_option_inv _ idsInvG road.sections
      (fun s sec _ s' hPs hstep =>
        foldlM_option_inv _ idsInvG sec.lanes
          (fun s2 lane _ s2' hP2 hl => processLaneG_idsInv fuel _ s2 lane s2' hl hP2)
          s s' hPs hstep)
      _ st' hP1 h

theorem processDocG_idsInv (fuel : ℕ) (st : GState) (doc : XodrDoc) (st' : GState)
    (h : processDocG fuel st doc = some st') (hP : idsInvG st) : idsInvG st' :=
  foldlM_option_inv _ idsInvG doc.roads
    (fun s road _ s' hPs hstep => processRoadG_idsInv fuel s road s' hstep hPs)
    _ st' hP h

/-- Identifier hygiene holds across a whole dedup batch run. -/
theorem processBatchG_idsInv (fuel : ℕ) (docs : List XodrDoc) (r : Rng) (st' : GState)
    (h : processBatchG fuel docs (initG r) = some st') : idsInvG st' :=
  foldlM_option_inv _ idsInvG docs
    (fun s doc _ s' hPs hstep => processDocG_idsInv fuel s doc s' hstep hPs)
    _ st' ⟨by simp [initG], by simp [initG]⟩ h

/-- C5 (amended): every identifier issued by `generate_unique_lane_id` is a
7-digit integer; identifiers are pairwise distinct within one single-file
compilation (`parse_xodr_to_vector_map`) and across the whole run in the
dedup/global driver, whose issued-id set is shared across documents.  (The
per-file batch driver of `xodr2xml&pyn_lanid.py` resets the set per
document, so cross-document distinctness fails there — see the
counterexample.) -/
theorem c5_unique_lane_ids :
    (∀ (fuel : ℕ) (doc : XodrDoc) (r : Rng) (ex : List ℕ) (st' : PState),
      parse_xodr_to_vector_map fuel doc r ex = some st' →
      (st'.mapping.map Prod.snd).Nodup ∧
      ∀ id ∈ st'.mapping.map Prod.snd, 1000000 ≤ id ∧ id ≤ 9999999) ∧
    (∀ (fuel : ℕ) (docs : List XodrDoc) (r : Rng) (st' : GState),
      processBatchG fuel docs (initG r) = some st' →
      (st'.mapping.map Prod.snd).Nodup ∧
      ∀ id ∈ st'.mapping.map Prod.snd, 1000000 ≤ id ∧ id ≤ 9999999) := by
  constructor
  · intro fuel doc r ex st' h
    obtain ⟨h1, h2⟩ := parse_xodr_to_vector_map_idsInv fuel doc r ex st' h
    exact ⟨h2, fun id hid => (h1 id hid).2⟩
  · intro fuel docs r st' h
    obtain ⟨h1, h2⟩ := processBatchG_idsInv fuel docs r st' h
    exact ⟨h2, fun id hid => (h1 id hid).2⟩

/-- A random stream that always draws 0 (so `randint` yields 1000000
every time). -/
def rngZero : Rng := ⟨fun _ => 0, 0⟩

/-- A lane element with no attributes at all (all defaults apply). -/
def laneL : Lane := ⟨none, none, none, none, none, none⟩

/-- A document whose single road has no geometry and one default lane. -/
def docL : XodrDoc := ⟨[⟨[], [⟨none, [laneL]⟩], none, none⟩]⟩

/-- The way produced for `docL`'s lane under `rngZero`. -/
def wayL : Way := ⟨1000000, "driving", "3.5", [], [], [], "None", "None"⟩

/-- The compiler state after single-file compilation of `docL`. -/
def stL : PState := ⟨[], [wayL], 0, [("0", 1000000)], 1, ⟨fun _ => 0, 1⟩, [1000000]⟩

/-- A road with one geometry primitive at the origin and link predecessor
`"5"` / successor `"6"`, holding one default lane. -/
def roadP : Road := ⟨[⟨0, 0, 0, 1, none⟩], [⟨none, [laneL]⟩], some "5", some "6"⟩

/-- A document holding just `roadP`. -/
def docP : XodrDoc := ⟨[roadP]⟩

/-- The deduplicated vector node at the rounded origin. -/
def nodeB : VNode := ⟨0, 0, 0⟩

/-- The dedup key of `roadP`'s lane. -/
def kB : WayKey := ([(0, 0)], "driving", "3.5")

/-- The dedup way record created for `roadP`'s lane. -/
def wayB : Way := ⟨1000000, "driving", "3.5", [nodeB], [], [], "None", "None"⟩

/-- The global dedup state after processing `docP` once under `rngZero`. -/
def gs1 : GState := ⟨[((0, 0), nodeB)], [(kB, wayB)], [("0", 1000000)], [1000000], 1,
  ⟨fun _ => 0, 1⟩⟩

/-- Witness for the amended C5: one single-file run and one dedup run. -/
theorem c5_unique_lane_ids_witness :
    ((stL.mapping.map Prod.snd).Nodup ∧
      ∀ id ∈ stL.mapping.map Prod.snd, 1000000 ≤ id ∧ id ≤ 9999999) ∧
    ((gs1.mapping.map Prod.snd).Nodup ∧
      ∀ id ∈ gs1.mapping.map Prod.snd, 1000000 ≤ id ∧ id ≤ 9999999) :=
  ⟨c5_unique_lane_ids.1 1 docL rngZero [] stL rfl,
   c5_unique_lane_ids.2 1 [docP] rngZero gs1 rfl⟩

/-- C5 counterexample: the per-file batch driver of
`xodr2xml&pyn_lanid.py` creates a fresh `existing_lane_ids` set per
document, so one run over two documents can issue the same identifier
twice. -/
theorem c5_counterexample :
    ((batch_single_vector_map 1 [docL, docL] rngZero).map
      fun p => p.1.flatMap fun st => st.mapping.map Prod.snd) = some [1000000, 1000000] ∧
    ¬ (([1000000, 1000000] : List ℕ).Nodup) := by
  exact ⟨rfl, by decide⟩

/-- Ways appended while processing one road in the single-file compiler
carry that road's link predecessor/successor. -/
theorem processRoadS_pred (fuel : ℕ) (st : PState) (road : Road) (st' : PState)
    (h : processRoadS fuel st road = some st') :
    ∀ w ∈ st'.ways, w ∈ st.ways ∨
      (w.predecessor = predList road ∧ w.successor = succList road) := by
  unfold processRoadS at h
  have hfields := roadGeomNodes_fields st road
  have hbase : ∀ w ∈ (roadGeomNodes st road).1.ways, w ∈ st.ways ∨
      (w.predecessor = predList road ∧ w.successor = succList road) :=
    fun w hw => Or.inl (hfields.1 ▸ hw)
  exact foldlM_option_inv _
    (fun s => ∀ w ∈ s.ways, w ∈ st.ways ∨
      (w.predecessor = predList road ∧ w.successor = succList road))
    road.sections
    (fun s sec _ s' hPs hstep =>
      foldlM_option_inv _
        (fun s2 => ∀ w ∈ s2.ways, w ∈ st.ways ∨
          (w.predecessor = predList road ∧ w.successor = succList road))
        sec.lanes
        (fun s2 lane _ s2' hP2 hl => by
          obtain ⟨q, _hq, _hmap, hways, _hex⟩ :=
            processLaneS_effect fuel road _ s2 lane s2' hl
          intro w hw
          rw [hways] at hw
          rcases List.mem_append.mp hw with hold | hnew
          · exact hP2 w hold
          · simp only [List.mem_cons, List.not_mem_nil, or_false] at hnew
            subst hnew
            exact Or.inr ⟨rfl, rfl⟩)
        s s' hPs hstep)
    _ st' hbase h

/-- The global dedup state property: every stored way has empty
predecessor and successor tag lists. -/
def emptyTopoG (st : GState) : Prop :=
  ∀ kw ∈ st.ways, kw.2.predecessor = [] ∧ kw.2.successor = []

theorem processLaneG_emptyTopo (fuel : ℕ) (roadNodes : List VNode) (st : GState)
    (lane : Lane) (st' : GState) (h : processLaneG fuel roadNodes st lane = some st')
    (hP : emptyTopoG st) : emptyTopoG st' := by
  rcases processLaneG_effect fuel roadNodes st lane st' h with
    ⟨_, rfl⟩ | ⟨_, q, _hq, hways, _hmap, _hex, _hn⟩
  · exact hP
  · intro kw hkw
    rw [hways] at hkw
    rcases List.mem_append.mp hkw with hold | hnew
    · exact hP kw hold
    · simp only [List.mem_cons, List.not_mem_nil, or_false] at hnew
      subst hnew
      exact ⟨rfl, rfl⟩

theorem processRoadG_emptyTopo (fuel : ℕ) (st : GState) (road : Road) (st' : GState)
    (h : processRoadG fuel st road = some st') (hP : emptyTopoG st) : emptyTopoG st' := by
  unfold processRoadG at h
  have hfields := processRoadNodes_fields st road
  have hP1 : emptyTopoG (processRoadNodes st road).1 := by
    intro kw hkw
    exact hP kw (hfields.1 ▸ hkw)
  by_cases hempty : (processRoadNodes st road).2 = []
  · rw [if_pos hempty] at h
    exact (Option.some.inj h) ▸ hP1
  · rw [if_neg hempty] at h
    exact foldlM_option_inv _ emptyTopoG road.sections
      (fun s sec _ s' hPs hstep =>
        foldlM_option_inv _ emptyTopoG sec.lanes
          (fun s2 lane _ s2' hP2 hl => processLaneG_emptyTopo fuel _ s2 lane s2' hl hP2)
          s s' hPs hstep)
      _ st' hP1 h

/-- Processing one road appends a block of ways, each carrying exactly that
road's link predecessor/successor tag lists. -/
theorem processRoadS_block (fuel : ℕ) (st : PState) (road : Road) (st' : PState)
    (h : processRoadS fuel st road = some st') :
    ∃ blk : List Way, st'.ways = st.ways ++ blk ∧
      ∀ w ∈ blk, w.predecessor = predList road ∧ w.successor = succList road := by
  unfold processRoadS at h
  have hfields := roadGeomNodes_fields st road
  exact foldlM_option_inv _
    (fun s => ∃ blk : List Way, s.ways = st.ways ++ blk ∧
      ∀ w ∈ blk, w.predecessor = predList road ∧ w.successor = succList road)
    road.sections
    (fun s sec _ s' hPs hstep =>
      foldlM_option_inv _
        (fun s2 => ∃ blk : List Way, s2.ways = st.ways ++ blk ∧
          ∀ w ∈ blk, w.predecessor = predList road ∧ w.successor = succList road)
        sec.lanes
        (fun s2 lane _ s2' hP2 hl => by
          obtain ⟨blk, hb, hp⟩ := hP2
          obtain ⟨q, _hq, _hmap, hways, _hex⟩ :=
            processLaneS_effect fuel road _ s2 lane s2' hl
          rw [hb, List.append_assoc] at hways
          refine ⟨_, hways, ?_⟩
          intro w hw
          rcases List.mem_append.mp hw with hold | hnew
          · exact hp w hold
          · simp only [List.mem_cons, List.not_mem_nil, or_false] at hnew
            subst hnew
            exact ⟨rfl, rfl⟩)
        s s' hPs hstep)
    _ st' ⟨[], by rw [hfields.1, List.append_nil], by simp⟩ h

/-- The road fold of the single-file compiler decomposes its ways output
into one block per road, in traversal order: block `i` holds exactly the
ways emitted for road `i`, all carrying road `i`'s link tags. -/
theorem foldRoadsS_blocks (fuel : ℕ) :
    ∀ (roads : List Road) (st st' : PState),
      roads.foldlM (processRoadS fuel) st = some st' →
      ∃ blocks : List (List Way),
        blocks.length = roads.length ∧
        st'.ways = st.ways ++ blocks.flatten ∧
        ∀ p ∈ blocks.zip roads, ∀ w ∈ p.1,
          w.predecessor = predList p.2 ∧ w.successor = succList p.2 := by
  intro roads
  induction roads with
  | nil =>
    intro st st' h
    rw [List.foldlM_nil] at h
    simp only [Option.pure_def] at h
    obtain rfl := Option.some.inj h
    exact ⟨[], rfl, by simp, by simp⟩
  | cons road roads ih =>
    intro st st' h
    rw [List.foldlM_cons] at h
    simp only [Option.bind_eq_bind] at h
    rw [Option.bind_eq_some] at h
    obtain ⟨s1, h1, h2⟩ := h
    obtain ⟨blk, hblk, hprops⟩ := processRoadS_block fuel st road s1 h1
    obtain ⟨blocks, hlen, hflat, hzip⟩ := ih s1 st' h2
    refine ⟨blk :: blocks, by simp [hlen], ?_, ?_⟩
    · rw [hflat, hblk, List.flatten_cons, List.append_assoc]
    · intro p hp
      rw [List.zip_cons_cons] at hp
      rcases List.mem_cons.mp hp with hp | hp
      · subst hp
        exact hprops
      · exact hzip p hp

/-- C9 (amended): in single-file mode the emitted ways decompose into one
block per road in traversal order, and every way in road `i`'s block
carries exactly road `i`'s link predecessor/successor tag lists — so all
lanes belonging to the same road carry the same predecessor and the same
successor; in the batch/dedup mode every emitted lane carries empty
predecessor and successor tag lists regardless of the road links. -/
theorem c9_topology_links :
    (∀ (fuel : ℕ) (doc : XodrDoc) (r : Rng) (ex : List ℕ) (st' : PState),
      parse_xodr_to_vector_map fuel doc r ex = some st' →
      ∃ blocks : List (List Way),
        blocks.length = doc.roads.length ∧
        st'.ways = blocks.flatten ∧
        (∀ p ∈ blocks.zip doc.roads, ∀ w ∈ p.1,
          w.predecessor = predList p.2 ∧ w.successor = succList p.2) ∧
        (∀ p ∈ blocks.zip doc.roads, ∀ w1 ∈ p.1, ∀ w2 ∈ p.1,
          w1.predecessor = w2.predecessor ∧ w1.successor = w2.successor)) ∧
    (∀ (fuel : ℕ) (docs : List XodrDoc) (r : Rng) (st' : GState),
      processBatchG fuel docs (initG r) = some st' →
      ∀ kw ∈ st'.ways, kw.2.predecessor = [] ∧ kw.2.successor = []) := by
  constructor
  · intro fuel doc r ex st' h
    unfold parse_xodr_to_vector_map at h
    obtain ⟨blocks, hlen, hflat, hzip⟩ := foldRoadsS_blocks fuel doc.roads _ st' h
    refine ⟨blocks, hlen, by simpa using hflat, hzip, ?_⟩
    intro p hp w1 hw1 w2 hw2
    obtain ⟨h1p, h1s⟩ := hzip p hp w1 hw1
    obtain ⟨h2p, h2s⟩ := hzip p hp w2 hw2
    exact ⟨h1p.trans h2p.symm, h1s.trans h2s.symm⟩
  · intro fuel docs r st' h
    exact foldlM_option_inv _ emptyTopoG docs
      (fun s doc _ s' hPs hstep =>
        foldlM_option_inv _ emptyTopoG doc.roads
          (fun s2 road _ s2' hP2 hr => processRoadG_emptyTopo fuel s2 road s2' hr hP2)
          s s' hPs hstep)
      _ st' (by simp [initG, emptyTopoG]) h

/-- The node created for `roadP`'s primitive in single-file mode. -/
def wayP : Way := ⟨1000000, "driving", "3.5", [nodeB], ["5"], ["6"], "None", "None"⟩

/-- The single-file compiler state after parsing `docP` under `rngZero`. -/
def stP : PState := ⟨[nodeB], [wayP], 1, [("0", 1000000)], 1, ⟨fun _ => 0, 1⟩, [1000000]⟩

/-- Witness for the amended C9: one single-file run (the block of `roadP`
inherits its link ids "5"/"6") and one dedup run (lane tags are empty). -/
theorem c9_topology_links_witness :
    (∃ blocks : List (List Way),
      blocks.length = docP.roads.length ∧
      stP.ways = blocks.flatten ∧
      (∀ p ∈ blocks.zip docP.roads, ∀ w ∈ p.1,
        w.predecessor = predList p.2 ∧ w.successor = succList p.2) ∧
      (∀ p ∈ blocks.zip docP.roads, ∀ w1 ∈ p.1, ∀ w2 ∈ p.1,
        w1.predecessor = w2.predecessor ∧ w1.successor = w2.successor)) ∧
    (∀ kw ∈ gs1.ways, kw.2.predecessor = [] ∧ kw.2.successor = []) :=
  ⟨c9_topology_links.1 1 docP rngZero [] stP rfl,
   c9_topology_links.2 1 [docP] rngZero gs1 rfl⟩

/-- C9 counterexample: the dedup driver emits empty predecessor/successor
tags even though the owning road's link element names predecessor "5" and
successor "6". -/
theorem c9_counterexample :
    ((processBatchG 1 [docP] (initG rngZero)).map
      fun st => st.ways.map fun kw => (kw.2.predecessor, kw.2.successor))
      = some [([], [])] ∧
    predList roadP = ["5"] ∧ succList roadP = ["6"] :=
  ⟨rfl, rfl, rfl⟩

/-- A successful association lookup exhibits a stored entry. -/
theorem alookup_mem {κ β : Type _} [DecidableEq κ] (l : List (κ × β)) (k : κ) (v : β)
    (h : alookup l k = some v) : (k, v) ∈ l := by
  induction l with
  | nil => simp [alookup] at h
  | cons p l ih =>
    unfold alookup at h
    by_cases hp : p.1 = k
    · rw [if_pos hp] at h
      obtain rfl := (Option.some.inj h).symm
      have hkv : (k, p.2) = p := Prod.ext hp.symm rfl
      rw [hkv]
      exact List.mem_cons_self _ _
    · rw [if_neg hp] at h
      exact List.mem_cons_of_mem _ (ih h)

/-- A key among the stored keys is found by lookup. -/
theorem alookup_isSome_of_mem_keys {κ β : Type _} [DecidableEq κ] (l : List (κ × β))
    (k : κ) (h : k ∈ l.map Prod.fst) : (alookup l k).isSome := by
  induction l with
  | nil => simp at h
  | cons p l ih =>
    unfold alookup
    by_cases hp : p.1 = k
    · rw [if_pos hp]; rfl
    · rw [if_neg hp]
      simp only [List.map_cons, List.mem_cons] at h
      rcases h with h | h
      · exact absurd h.symm hp
      · exact ih h

/-- Lookup passes over an exhausted left part. -/
theorem alookup_append_right {κ β : Type _} [DecidableEq κ] (l1 l2 : List (κ × β))
    (k : κ) (h : alookup l1 k = none) : alookup (l1 ++ l2) k = alookup l2 k := by
  induction l1 with
  | nil => simp
  | cons p l ih =>
    rw [List.cons_append]
    by_cases hp : p.1 = k
    · exfalso
      unfold alookup at h
      rw [if_pos hp] at h
      exact Option.noConfusion h
    · have h' : alookup l k = none := by
        unfold alookup at h
        rwa [if_neg hp] at h
      show (if p.1 = k then some p.2 else alookup (l ++ l2) k) = alookup l2 k
      rw [if_neg hp]
      exact ih h' 

/-- The node-dedup table invariant: every entry's key is exactly its stored
node's coordinate pair. -/
def nodesInvG (st : GState) : Prop := ∀ p ∈ st.nodes, p.1 = (p.2.x, p.2.y)

/-- One geometry step extends the collected `road_nodes` by a node whose
coordinates are the rounded primitive coordinates, and keeps the node
invariant. -/
theorem processGeomNode_coords (p : GState × List VNode) (g : Geometry)
    (hInv : nodesInvG p.1) :
    ((processGeomNode p g).2.map fun n => (n.x, n.y))
      = (p.2.map fun n => (n.x, n.y)) ++ [(round4 g.x, round4 g.y)] ∧
    nodesInvG (processGeomNode p g).1 := by
  dsimp only [processGeomNode]
  cases h : alookup p.1.nodes (round4 g.x, round4 g.y) with
  | some node =>
    have hkey := hInv _ (alookup_mem _ _ _ h)
    constructor
    · simp only [List.map_append, List.map_cons, List.map_nil]
      rw [← hkey]
    · exact hInv
  | none =>
    constructor
    · simp
    · intro e he
      rcases List.mem_append.mp he with hold | hnew
      · exact hInv e hold
      · simp only [List.mem_cons, List.not_mem_nil, or_false] at hnew
        subst hnew
        rfl

theorem foldl_processGeomNode_coords :
    ∀ (gs : List Geometry) (p : GState × List VNode), nodesInvG p.1 →
      (((gs.foldl processGeomNode p).2.map fun n => (n.x, n.y))
          = (p.2.map fun n => (n.x, n.y)) ++ gs.map (fun g => (round4 g.x, round4 g.y)) ∧
        nodesInvG (gs.foldl processGeomNode p).1) := by
  intro gs
  induction gs with
  | nil => intro p hInv; simpa using hInv
  | cons g gs ih =>
    intro p hInv
    obtain ⟨hstep, hInv1⟩ := processGeomNode_coords p g hInv
    obtain ⟨hrest, hInv2⟩ := ih (processGeomNode p g) hInv1
    rw [List.foldl_cons]
    refine ⟨?_, hInv2⟩
    rw [hrest, hstep, List.map_cons, List.append_assoc, List.singleton_append]

/-- The collected `road_nodes` of a road carry exactly the road's rounded
primitive coordinates, in order. -/
theorem processRoadNodes_coords (st : GState) (road : Road) (hInv : nodesInvG st) :
    ((processRoadNodes st road).2.map fun n => (n.x, n.y))
      = road.geometries.map (fun g => (round4 g.x, round4 g.y)) := by
  have h := foldl_processGeomNode_coords road.geometries (st, []) hInv
  simpa [processRoadNodes] using h.1

theorem processRoadNodes_nodesInv (st : GState) (road : Road) (hInv : nodesInvG st) :
    nodesInvG (processRoadNodes st road).1 :=
  (foldl_processGeomNode_coords road.geometries (st, []) hInv).2

theorem processLaneG_nodesInv (fuel : ℕ) (roadNodes : List VNode) (st : GState)
    (lane : Lane) (st' : GState) (h : processLaneG fuel roadNodes st lane = some st')
    (hInv : nodesInvG st) : nodesInvG st' := by
  rcases processLaneG_effect fuel roadNodes st lane st' h with
    ⟨_, rfl⟩ | ⟨_, q, _, _, _, _, hn⟩
  · exact hInv
  · intro e he
    exact hInv e (hn ▸ he)

theorem processRoadG_nodesInv (fuel : ℕ) (st : GState) (road : Road) (st' : GState)
    (h : processRoadG fuel st road = some st') (hInv : nodesInvG st) : nodesInvG st' := by
  unfold processRoadG at h
  have hInv1 := processRoadNodes_nodesInv st road hInv
  by_cases hempty : (processRoadNodes st road).2 = []
  · rw [if_pos hempty] at h
    exact (Option.some.inj h) ▸ hInv1
  · rw [if_neg hempty] at h
    exact foldlM_option_inv _ nodesInvG road.sections
      (fun s sec _ s' hPs hstep =>
        foldlM_option_inv _ nodesInvG sec.lanes
          (fun s2 lane _ s2' hP2 hl => processLaneG_nodesInv fuel _ s2 lane s2' hl hP2)
          s s' hPs hstep)
      _ st' hInv1 h

theorem processDocG_nodesInv (fuel : ℕ) (st : GState) (doc : XodrDoc) (st' : GState)
    (h : processDocG fuel st doc = some st') (hInv : nodesInvG st) : nodesInvG st' :=
  foldlM_option_inv _ nodesInvG doc.roads
    (fun s road _ s' hPs hstep => processRoadG_nodesInv fuel s road s' hstep hPs)
    _ st' hInv h

/-- One lane step only ever appends to the global ways table. -/
theorem processLaneG_ways_extends (fuel : ℕ) (roadNodes : List VNode) (st : GState)
    (lane : Lane) (st' : GState) (h : processLaneG fuel roadNodes st lane = some st') :
    ∃ suf, st'.ways = st.ways ++ suf := by
  rcases processLaneG_effect fuel roadNodes st lane st' h with
    ⟨_, rfl⟩ | ⟨_, q, _, hways, _, _, _⟩
  · exact ⟨[], by simp⟩
  · exact ⟨_, hways⟩

theorem processRoadG_ways_extends (fuel : ℕ) (st : GState) (road : Road) (st' : GState)
    (h : processRoadG fuel st road = some st') :
    ∃ suf, st'.ways = st.ways ++ suf := by
  unfold processRoadG at h
  have hfields := processRoadNodes_fields st road
  by_cases hempty : (processRoadNodes st road).2 = []
  · rw [if_pos hempty] at h
    exact ⟨[], by rw [← Option.some.inj h, hfields.1, List.append_nil]⟩
  · rw [if_neg hempty] at h
    have hP := foldlM_option_inv _ (fun s => ∃ suf, s.ways = st.ways ++ suf) road.sections
      (fun s sec _ s' hPs hstep =>
        foldlM_option_inv _ (fun s2 => ∃ suf, s2.ways = st.ways ++ suf) sec.lanes
          (fun s2 lane _ s2' hP2 hl => by
            obtain ⟨suf1, h1⟩ := hP2
            obtain ⟨suf2, h2⟩ := processLaneG_ways_extends fuel _ s2 lane s2' hl
            exact ⟨suf1 ++ suf2, by rw [h2, h1, List.append_assoc]⟩)
          s s' hPs hstep)
      _ st' ⟨[], by rw [hfields.1, List.append_nil]⟩ h
    exact hP

theorem processDocG_ways_extends (fuel : ℕ) (st : GState) (doc : XodrDoc) (st' : GState)
    (h : processDocG fuel st doc = some st') :
    ∃ suf, st'.ways = st.ways ++ suf :=
  foldlM_option_inv _ (fun s => ∃ suf, s.ways = st.ways ++ suf) doc.roads
    (fun s road _ s' hPs hstep => by
      obtain ⟨suf1, h1⟩ := hPs
      obtain ⟨suf2, h2⟩ := processRoadG_ways_extends fuel s road s' hstep
      exact ⟨suf1 ++ suf2, by rw [h2, h1, List.append_assoc]⟩)
    _ st' ⟨[], by simp⟩ h

/-- The global ways table has pairwise distinct keys. -/
def keysNodupG (st : GState) : Prop := (st.ways.map Prod.fst).Nodup

theorem processLaneG_keysNodup (fuel : ℕ) (roadNodes : List VNode) (st : GState)
    (lane : Lane) (st' : GState) (h : processLaneG fuel roadNodes st lane = some st')
    (hP : keysNodupG st) : keysNodupG st' := by
  rcases processLaneG_effect fuel roadNodes st lane st' h with
    ⟨_, rfl⟩ | ⟨hnone, q, _, hways, _, _, _⟩
  · exact hP
  · unfold keysNodupG at *
    rw [hways]
    simp only [List.map_append, List.map_cons, List.map_nil]
    rw [List.nodup_append]
    refine ⟨hP, List.nodup_singleton _, ?_⟩
    intro x hx hmem
    simp only [List.mem_cons, List.not_mem_nil, or_false] at hmem
    subst hmem
    have := alookup_isSome_of_mem_keys st.ways _ hx
    rw [hnone] at this
    simp [Option.isSome] at this

theorem processRoadG_keysNodup (fuel : ℕ) (st : GState) (road : Road) (st' : GState)
    (h : processRoadG fuel st road = some st') (hP : keysNodupG st) : keysNodupG st' := by
  unfold processRoadG at h
  have hfields := processRoadNodes_fields st road
  have hP1 : keysNodupG (processRoadNodes st road).1 := by
    unfold keysNodupG at *
    rw [hfields.1]
    exact hP
  by_cases hempty : (processRoadNodes st road).2 = []
  · rw [if_pos hempty] at h
    exact (Option.some.inj h) ▸ hP1
  · rw [if_neg hempty] at h
    exact foldlM_option_inv _ keysNodupG road.sections
      (fun s sec _ s' hPs hstep =>
        foldlM_option_inv _ keysNodupG sec.lanes
          (fun s2 lane _ s2' hP2 hl => processLaneG_keysNodup fuel _ s2 lane s2' hl hP2)
          s s' hPs hstep)
      _ st' hP1 h

theorem processDocG_keysNodup (fuel : ℕ) (st : GState) (doc : XodrDoc) (st' : GState)
    (h : processDocG fuel st doc = some st') (hP : keysNodupG st) : keysNodupG st' :=
  foldlM_option_inv _ keysNodupG doc.roads
    (fun s road _ s' hPs hstep => processRoadG_keysNodup fuel s road s' hstep hPs)
    _ st' hP h

/-- A found key stays found (with the same record) across one lane step. -/
theorem processLaneG_keyStable (fuel : ℕ) (roadNodes : List VNode) (st : GState)
    (lane : Lane) (st' : GState) (k : WayKey)
    (h : processLaneG fuel roadNodes st lane = some st')
    (hP : (alookup st.ways k).isSome) : alookup st'.ways k = alookup st.ways k := by
  obtain ⟨suf, hsuf⟩ := processLaneG_ways_extends fuel roadNodes st lane st' h
  rw [hsuf]
  exact alookup_append_of_isSome _ _ _ hP

/-- A found key stays found across the nested section/lane folds of one
road. -/
theorem sectionsFold_keyPresent (fuel : ℕ) (roadNodes : List VNode)
    (secs : List LaneSection) (s s' : GState) (k : WayKey)
    (h : secs.foldlM (fun st1 sec => sec.lanes.foldlM (processLaneG fuel roadNodes) st1) s
      = some s')
    (hP : (alookup s.ways k).isSome) : (alookup s'.ways k).isSome :=
  foldlM_option_inv _ (fun s2 => (alookup s2.ways k).isSome) secs
    (fun s2 sec _ s2' hP2 hstep =>
      foldlM_option_inv _ (fun s3 => (alookup s3.ways k).isSome) sec.lanes
        (fun s3 lane _ s3' hP3 hl => by
          show (alookup s3'.ways k).isSome = true
          rw [processLaneG_keyStable fuel roadNodes s3 lane s3' k hl hP3]
          exact hP3)
        s2 s2' hP2 hstep)
    s s' hP h

/-- Processing a road that contains a lane with dedup key `k` leaves `k`
present in the global ways table. -/
theorem processRoadG_covers (fuel : ℕ) (st : GState) (road : Road) (st' : GState)
    (k : WayKey) (h : processRoadG fuel st road = some st') (hInv : nodesInvG st)
    (hne : road.geometries ≠ [])
    (hk1 : road.geometries.map (fun g => (round4 g.x, round4 g.y)) = k.1)
    (sec : LaneSection) (hsec : sec ∈ road.sections)
    (lane : Lane) (hlane : lane ∈ sec.lanes)
    (hk2 : lane.type_attr.getD "driving" = k.2.1)
    (hk3 : lane.width_attr.getD "3.5" = k.2.2) :
    (alookup st'.ways k).isSome := by
  unfold processRoadG at h
  have hcoords := processRoadNodes_coords st road hInv
  have hne2 : (processRoadNodes st road).2 ≠ [] := by
    intro hemp
    apply hne
    have hlen := congrArg List.length hcoords
    rw [hemp] at hlen
    simp only [List.map_nil, List.length_nil, List.length_map] at hlen
    exact List.eq_nil_of_length_eq_zero hlen.symm
  rw [if_neg hne2] at h
  have hkey : laneKeyOf (processRoadNodes st road).2 lane = k := by
    unfold laneKeyOf
    rw [hcoords, hk1, hk2, hk3]
  obtain ⟨s1, s2, hs⟩ := List.append_of_mem hsec
  rw [hs, foldlM_option_append] at h
  rw [Option.bind_eq_some] at h
  obtain ⟨m1, _hm1, h⟩ := h
  rw [List.foldlM_cons] at h
  simp only [Option.bind_eq_bind] at h
  rw [Option.bind_eq_some] at h
  obtain ⟨m2, hm2, hrest⟩ := h
  -- m2 is the state after the witness section; find the witness lane inside
  obtain ⟨t1, t2, ht⟩ := List.append_of_mem hlane
  rw [ht, foldlM_option_append] at hm2
  rw [Option.bind_eq_some] at hm2
  obtain ⟨n1, _hn1, hm2⟩ := hm2
  rw [List.foldlM_cons] at hm2
  simp only [Option.bind_eq_bind] at hm2
  rw [Option.bind_eq_some] at hm2
  obtain ⟨n2, hn2, hm2tail⟩ := hm2
  -- after the witness lane, k is present
  have hn2present : (alookup n2.ways k).isSome := by
    rcases processLaneG_effect fuel _ n1 lane n2 hn2 with
      ⟨hne3, rfl⟩ | ⟨hnone, q, _, hways, _, _, _⟩
    · rw [hkey] at hne3
      exact Option.isSome_iff_ne_none.mpr hne3
    · rw [hways, hkey]
      rw [hkey] at hnone
      rw [alookup_append_right _ _ _ hnone]
      simp [alookup, hkey]
  -- the key persists through the remaining lanes of the section
  have hm2present : (alookup m2.ways k).isSome :=
    foldlM_option_inv _ (fun s3 => (alookup s3.ways k).isSome) t2
      (fun s3 lane2 _ s3' hP3 hl => by
        show (alookup s3'.ways k).isSome = true
        rw [processLaneG_keyStable fuel _ s3 lane2 s3' k hl hP3]
        exact hP3)
      n2 m2 hn2present hm2tail
  -- and through the remaining sections
  exact sectionsFold_keyPresent fuel _ s2 m2 st' k hrest hm2present

/-- Processing a document containing a lane with dedup key `k` leaves `k`
present in the global ways table. -/
theorem processDocG_covers (fuel : ℕ) (st : GState) (doc : XodrDoc) (st' : GState)
    (k : WayKey) (h : processDocG fuel st doc = some st') (hInv : nodesInvG st)
    (hd : docHasLaneKey doc k) : (alookup st'.ways k).isSome := by
  obtain ⟨road, hroad, hne, hk1, sec, hsec, lane, hlane, hk2, hk3⟩ := hd
  obtain ⟨l1, l2, hsplit⟩ := List.append_of_mem hroad
  unfold processDocG at h
  rw [hsplit, foldlM_option_append] at h
  rw [Option.bind_eq_some] at h
  obtain ⟨s1, hs1, h⟩ := h
  rw [List.foldlM_cons] at h
  simp only [Option.bind_eq_bind] at h
  rw [Option.bind_eq_some] at h
  obtain ⟨s2, hs2, hrest⟩ := h
  have hInv1 : nodesInvG s1 :=
    foldlM_option_inv _ nodesInvG l1
      (fun s road2 _ s' hPs hstep => processRoadG_nodesInv fuel s road2 s' hstep hPs)
      st s1 hInv hs1
  have hs2present : (alookup s2.ways k).isSome :=
    processRoadG_covers fuel s1 road s2 k hs2 hInv1 hne hk1 sec hsec lane hlane hk2 hk3
  exact foldlM_option_inv _ (fun s3 => (alookup s3.ways k).isSome) l2
    (fun s3 road2 _ s3' hP3 hr => by
      show (alookup s3'.ways k).isSome = true
      obtain ⟨suf, hsuf⟩ := processRoadG_ways_extends fuel s3 road2 s3' hr
      rw [hsuf, alookup_append_of_isSome _ _ _ hP3]
      exact hP3)
    s2 st' hs2present hrest

/-- In an association list with pairwise distinct keys, a present key owns
exactly one entry. -/
theorem filter_key_length_one {κ β : Type _} [DecidableEq κ] (l : List (κ × β)) (k : κ)
    (hnodup : (l.map Prod.fst).Nodup) (hmem : k ∈ l.map Prod.fst) :
    (l.filter fun kw => decide (kw.1 = k)).length = 1 := by
  induction l with
  | nil => simp at hmem
  | cons p l ih =>
    simp only [List.map_cons, List.nodup_cons] at hnodup
    by_cases hp : p.1 = k
    · have hfilnil : (l.filter fun kw => decide (kw.1 = k)) = [] := by
        rw [List.filter_eq_nil_iff]
        intro kw hkw
        simp only [decide_eq_true_eq]
        intro hkk
        exact hnodup.1 (by rw [← hp] at hkk; rw [← hkk]; exact List.mem_map_of_mem _ hkw)
      rw [List.filter_cons_of_pos (by simpa using hp), hfilnil]
      rfl
    · rw [List.filter_cons_of_neg (by simpa using hp)]
      apply ih hnodup.2
      simp only [List.map_cons, List.mem_cons] at hmem
      rcases hmem with hmem | hmem
      · exact absurd hmem.symm hp
      · exact hmem

/-- C2: in dedup/global mode, when each of two documents contains a lane
with the same dedup key (same rounded ordered node coordinates, type string
and width string), the merged graph holds exactly one lane record for that
key, and it is the record (with its identifier) created while processing
the first document. -/
theorem c2_dedup_collapses (fuel : ℕ) (d1 d2 : XodrDoc) (k : WayKey) (r : Rng)
    (final s1 : GState)
    (hfinal : processBatchG fuel [d1, d2] (initG r) = some final)
    (hs1 : processBatchG fuel [d1] (initG r) = some s1)
    (hk1 : docHasLaneKey d1 k) (_hk2 : docHasLaneKey d2 k) :
    (final.ways.filter fun kw => decide (kw.1 = k)).length = 1 ∧
    (alookup s1.ways k).isSome ∧
    alookup final.ways k = alookup s1.ways k := by
  have hd1 : processDocG fuel (initG r) d1 = some s1 := by
    unfold processBatchG at hs1
    rw [List.foldlM_cons] at hs1
    simp only [Option.bind_eq_bind] at hs1
    rw [Option.bind_eq_some] at hs1
    obtain ⟨m1, hm1, htail⟩ := hs1
    rw [List.foldlM_nil] at htail
    simp only [Option.pure_def] at htail
    rwa [Option.some.inj htail] at hm1
  have hd2 : processDocG fuel s1 d2 = some final := by
    unfold processBatchG at hfinal
    rw [List.foldlM_cons] at hfinal
    simp only [Option.bind_eq_bind] at hfinal
    rw [Option.bind_eq_some] at hfinal
    obtain ⟨m1, hm1, htail⟩ := hfinal
    have hm1s1 : m1 = s1 := Option.some.inj (hm1.symm.trans hd1)
    rw [hm1s1] at htail
    rw [List.foldlM_cons] at htail
    simp only [Option.bind_eq_bind] at htail
    rw [Option.bind_eq_some] at htail
    obtain ⟨m2, hm2, htail2⟩ := htail
    rw [List.foldlM_nil] at htail2
    simp only [Option.pure_def] at htail2
    rwa [Option.some.inj htail2] at hm2
  have hInv0 : nodesInvG (initG r) := by intro p hp; simp [initG] at hp
  have hs1cov : (alookup s1.ways k).isSome :=
    processDocG_covers fuel (initG r) d1 s1 k hd1 hInv0 hk1
  obtain ⟨suf, hsuf⟩ := processDocG_ways_extends fuel s1 d2 final hd2
  have hstable : alookup final.ways k = alookup s1.ways k := by
    rw [hsuf]
    exact alookup_append_of_isSome _ _ _ hs1cov
  have hfincov : (alookup final.ways k).isSome := by
    rw [hstable]
    exact hs1cov
  have hnodup : keysNodupG final := by
    have h0 : keysNodupG (initG r) := by simp [initG, keysNodupG]
    exact processDocG_keysNodup fuel s1 d2 final hd2
      (processDocG_keysNodup fuel (initG r) d1 s1 hd1 h0)
  refine ⟨?_, hs1cov, hstable⟩
  exact filter_key_length_one final.ways k hnodup (alookup_isSome_mem final.ways k hfincov)

/-- Witness for C2: the same one-lane document processed twice collapses to
one record keyed `kB`, keeping the first-assigned identifier. -/
theorem c2_dedup_collapses_witness :
    (gs1.ways.filter fun kw => decide (kw.1 = kB)).length = 1 ∧
    (alookup gs1.ways kB).isSome ∧
    alookup gs1.ways kB = alookup gs1.ways kB :=
  c2_dedup_collapses 1 docP docP kB rngZero gs1 gs1 rfl rfl (by decide) (by decide)
